import Mathlib

/-!
Verification development for the keyset-pagination serving model in
`data_api_serving/resources/serving/api_model_customers.py`.

The Python module is shallowly embedded below: pure helpers become Lean
functions, JSON values become the inductive `JVal` (the float-free JSON
fragment; floating point is outside the model), Python runtime errors become
an explicit `PyErr` in `Except`, and the external warehouse collaborator is
modelled denotationally by the relational semantics of the statement the
query compiler emits.
-/

namespace DataApi

/-! ### Decimal digits: models Python's `str`/`repr` of `int` and `int(str)` -/

/-- The character for one decimal digit (inputs ≥ 9 collapse to `'9'`;
only inputs < 10 are ever used). -/
def digitChar (d : Nat) : Char :=
  match d with
  | 0 => '0' | 1 => '1' | 2 => '2' | 3 => '3' | 4 => '4'
  | 5 => '5' | 6 => '6' | 7 => '7' | 8 => '8' | _ => '9'

def digitVal (c : Char) : Nat := c.toNat - 48

def isDigitCh (c : Char) : Bool := decide ('0' ≤ c) && decide (c ≤ '9')

/-- Decimal representation of a natural number, most significant digit first. -/
def natToChars (n : Nat) : List Char :=
  if _h : n < 10 then [digitChar n]
  else natToChars (n / 10) ++ [digitChar (n % 10)]
decreasing_by exact Nat.div_lt_self (by omega) (by omega)

/-- Decimal representation of an integer (`'-'` prefix when negative). -/
def intToChars (i : Int) : List Char :=
  if i < 0 then '-' :: natToChars i.natAbs else natToChars i.toNat

def valOfDigits (l : List Char) : Nat :=
  l.foldl (fun a c => 10 * a + digitVal c) 0

theorem isDigitCh_digitChar (d : Nat) : isDigitCh (digitChar d) = true := by
  unfold digitChar
  split <;> decide

theorem digitVal_digitChar : ∀ d < 10, digitVal (digitChar d) = d := by decide

theorem natToChars_ne_nil (n : Nat) : natToChars n ≠ [] := by
  unfold natToChars
  split <;> simp

theorem mem_natToChars_isDigit (n : Nat) : ∀ c ∈ natToChars n, isDigitCh c = true := by
  induction n using Nat.strong_induction_on with
  | _ n ih =>
    unfold natToChars
    split
    · intro c hc
      simp only [List.mem_singleton] at hc
      subst hc; exact isDigitCh_digitChar n
    · intro c hc
      rcases List.mem_append.1 hc with h1 | h1
      · exact ih (n / 10) (Nat.div_lt_self (by omega) (by omega)) c h1
      · simp only [List.mem_singleton] at h1
        subst h1; exact isDigitCh_digitChar _

theorem valOfDigits_append_singleton (l : List Char) (c : Char) :
    valOfDigits (l ++ [c]) = 10 * valOfDigits l + digitVal c := by
  simp [valOfDigits, List.foldl_append]

theorem valOfDigits_natToChars (n : Nat) : valOfDigits (natToChars n) = n := by
  induction n using Nat.strong_induction_on with
  | _ n ih =>
    unfold natToChars
    split
    · next h => simp [valOfDigits, digitVal_digitChar n h]
    · next h =>
      rw [valOfDigits_append_singleton, ih (n / 10) (Nat.div_lt_self (by omega) (by omega)),
        digitVal_digitChar (n % 10) (by omega)]
      omega

/-- Head-of-list digit test, used to state parser round trips. -/
def headIsDigit (l : List Char) : Bool :=
  match l with
  | [] => false
  | c :: _ => isDigitCh c

theorem takeWhile_append_of_all {p : Char → Bool} {xs rest : List Char}
    (h : ∀ c ∈ xs, p c = true) :
    (xs ++ rest).takeWhile p = xs ++ rest.takeWhile p := by
  induction xs with
  | nil => rfl
  | cons a t ih =>
    rw [List.cons_append, List.takeWhile_cons, h a (List.mem_cons_self a t),
      if_pos rfl, List.cons_append]
    exact congrArg (List.cons a) (ih (fun c hc => h c (List.mem_cons_of_mem a hc)))

theorem dropWhile_append_of_all {p : Char → Bool} {xs rest : List Char}
    (h : ∀ c ∈ xs, p c = true) :
    (xs ++ rest).dropWhile p = rest.dropWhile p := by
  induction xs with
  | nil => rfl
  | cons a t ih =>
    rw [List.cons_append, List.dropWhile_cons, h a (List.mem_cons_self a t),
      if_pos rfl]
    exact ih (fun c hc => h c (List.mem_cons_of_mem a hc))

theorem takeWhile_eq_nil_of_head {p : Char → Bool} {l : List Char}
    (h : match l with | [] => True | c :: _ => p c = false) :
    l.takeWhile p = [] := by
  cases l with
  | nil => rfl
  | cons a t => simp only [List.takeWhile_cons]; simp_all

/-- Longest leading run of decimal digits, with its value; `none` when the
input does not start with a digit.  Models the number-token scanner of
`json.loads` (integer part) and `int(str)`. -/
def parseNatChars (l : List Char) : Option (Nat × List Char) :=
  match l.takeWhile isDigitCh with
  | [] => none
  | ds => some (valOfDigits ds, l.dropWhile isDigitCh)

theorem parseNatChars_natToChars (n : Nat) (rest : List Char)
    (h : headIsDigit rest = false) :
    parseNatChars (natToChars n ++ rest) = some (n, rest) := by
  have hall := mem_natToChars_isDigit n
  have htake : (natToChars n ++ rest).takeWhile isDigitCh = natToChars n := by
    rw [takeWhile_append_of_all hall, takeWhile_eq_nil_of_head (by
      cases rest with
      | nil => trivial
      | cons c t => simpa [headIsDigit] using h), List.append_nil]
  have hdrop : (natToChars n ++ rest).dropWhile isDigitCh = rest := by
    rw [dropWhile_append_of_all hall]
    cases rest with
    | nil => rfl
    | cons c t =>
      simp only [headIsDigit] at h
      simp [List.dropWhile_cons, h]
  unfold parseNatChars
  rw [htake, hdrop]
  have hne := natToChars_ne_nil n
  have hval := valOfDigits_natToChars n
  cases hx : natToChars n with
  | nil => exact absurd hx hne
  | cons a t =>
    rw [hx] at hval
    simp [hval]

/-! ### Hexadecimal digits for `\uXXXX` string escapes -/

def hexDigitChar (d : Nat) : Char :=
  match d with
  | 0 => '0' | 1 => '1' | 2 => '2' | 3 => '3' | 4 => '4'
  | 5 => '5' | 6 => '6' | 7 => '7' | 8 => '8' | 9 => '9'
  | 10 => 'a' | 11 => 'b' | 12 => 'c' | 13 => 'd' | 14 => 'e' | _ => 'f'

def hexVal (c : Char) : Option Nat :=
  if isDigitCh c then some (c.toNat - 48)
  else if decide ('a' ≤ c) && decide (c ≤ 'f') then some (c.toNat - 87)
  else if decide ('A' ≤ c) && decide (c ≤ 'F') then some (c.toNat - 55)
  else none

/-- Four lowercase hex digits, as emitted by `json.dumps` for `\uXXXX`. -/
def toHex4 (n : Nat) : List Char :=
  [hexDigitChar (n / 4096 % 16), hexDigitChar (n / 256 % 16),
   hexDigitChar (n / 16 % 16), hexDigitChar (n % 16)]

def parseHex4 (l : List Char) : Option (Nat × List Char) :=
  match l with
  | a :: b :: c :: d :: rest =>
    match hexVal a, hexVal b, hexVal c, hexVal d with
    | some v1, some v2, some v3, some v4 =>
      some (((v1 * 16 + v2) * 16 + v3) * 16 + v4, rest)
    | _, _, _, _ => none
  | _ => none

theorem hexVal_hexDigitChar : ∀ d < 16, hexVal (hexDigitChar d) = some d := by decide

theorem parseHex4_toHex4 (n : Nat) (hn : n < 65536) (rest : List Char) :
    parseHex4 (toHex4 n ++ rest) = some (n, rest) := by
  unfold toHex4 parseHex4
  rw [List.cons_append, List.cons_append, List.cons_append, List.cons_append,
    List.nil_append]
  simp only [hexVal_hexDigitChar (n / 4096 % 16) (by omega),
    hexVal_hexDigitChar (n / 256 % 16) (by omega),
    hexVal_hexDigitChar (n / 16 % 16) (by omega),
    hexVal_hexDigitChar (n % 16) (by omega)]
  congr 1
  congr 1
  omega

/-! ### JSON values

`JVal` is the float-free JSON fragment: the values `json.loads` can produce
from a cursor or filter payload, minus floating-point numbers (floating
point is outside the model).  Object fields keep their textual order, as
Python dicts keep insertion order. -/

inductive JVal where
  | null
  | bool (b : Bool)
  | int (n : Int)
  | str (s : String)
  | arr (elems : List JVal)
  | obj (fields : List (String × JVal))
  deriving Repr

/-- Left brace character (written by code point to keep it out of string
literals). -/
def lbrace : Char := Char.ofNat 123

/-- Right brace character. -/
def rbrace : Char := Char.ofNat 125

/-! ### `json.dumps(..., separators=(",", ":"))`: the serializer

`escChar` models the `ensure_ascii=True` escaping of one character:
`"` and `\` get two-character escapes, the five short control escapes are
used below 0x20, all other characters outside 0x20–0x7e are emitted as
`\uXXXX` (a surrogate pair above 0xFFFF). -/

def escChar (c : Char) : List Char :=
  if c = '"' then ['\\', '"']
  else if c = '\\' then ['\\', '\\']
  else if c = Char.ofNat 8 then ['\\', 'b']
  else if c = Char.ofNat 9 then ['\\', 't']
  else if c = Char.ofNat 10 then ['\\', 'n']
  else if c = Char.ofNat 12 then ['\\', 'f']
  else if c = Char.ofNat 13 then ['\\', 'r']
  else if c.toNat < 32 ∨ 127 ≤ c.toNat then
    if c.toNat < 65536 then '\\' :: 'u' :: toHex4 c.toNat
    else
      ('\\' :: 'u' :: toHex4 (55296 + (c.toNat - 65536) / 1024)) ++
      ('\\' :: 'u' :: toHex4 (56320 + (c.toNat - 65536) % 1024))
  else [c]

/-- A JSON string literal: quote, escaped characters, quote. -/
def dumpKey (s : String) : List Char :=
  '"' :: (s.data.map escChar).flatten ++ ['"']

mutual

/-- Characters of `json.dumps(v, separators=(",", ":"))`. -/
def dumpsChars : JVal → List Char
  | .null => 'n' :: 'u' :: 'l' :: 'l' :: []
  | .bool true => 't' :: 'r' :: 'u' :: 'e' :: []
  | .bool false => 'f' :: 'a' :: 'l' :: 's' :: 'e' :: []
  | .int n => intToChars n
  | .str s => dumpKey s
  | .arr xs => '[' :: eDump xs
  | .obj kvs => lbrace :: mDump kvs

/-- Array elements plus the closing bracket. -/
def eDump : List JVal → List Char
  | [] => [']']
  | x :: t => dumpsChars x ++ tDump t

/-- Remaining array elements, each preceded by a comma, plus the closing
bracket. -/
def tDump : List JVal → List Char
  | [] => [']']
  | x :: t => ',' :: (dumpsChars x ++ tDump t)

/-- Object members plus the closing brace. -/
def mDump : List (String × JVal) → List Char
  | [] => [rbrace]
  | (k, v) :: t => dumpKey k ++ ':' :: (dumpsChars v ++ mtDump t)

/-- Remaining object members, each preceded by a comma, plus the closing
brace. -/
def mtDump : List (String × JVal) → List Char
  | [] => [rbrace]
  | (k, v) :: t => ',' :: (dumpKey k ++ ':' :: (dumpsChars v ++ mtDump t))

end

def dumps (j : JVal) : String := String.mk (dumpsChars j)

/-! Fuel bounds for the recursive-descent parser below: `jfuel j` is enough
fuel to parse `dumpsChars j`. -/

mutual

def jfuel : JVal → Nat
  | .null | .bool _ | .int _ | .str _ => 1
  | .arr xs => 1 + eFuel xs
  | .obj kvs => 1 + mFuel kvs

def eFuel : List JVal → Nat
  | [] => 1
  | x :: t => 1 + max (jfuel x) (tFuel t)

def tFuel : List JVal → Nat
  | [] => 1
  | x :: t => 1 + max (jfuel x) (tFuel t)

def mFuel : List (String × JVal) → Nat
  | [] => 1
  | (_, v) :: t => 1 + max (jfuel v) (mtFuel t)

def mtFuel : List (String × JVal) → Nat
  | [] => 1
  | (_, v) :: t => 1 + max (jfuel v) (mtFuel t)

end

theorem dumpKey_length_pos (s : String) : 0 < (dumpKey s).length := by
  simp [dumpKey]

mutual

theorem dumpsChars_length_pos (j : JVal) : 0 < (dumpsChars j).length := by
  match j with
  | .null | .bool true | .bool false => simp [dumpsChars]
  | .int n =>
    show 0 < (intToChars n).length
    unfold intToChars
    split
    · simp
    · have := natToChars_ne_nil n.toNat
      cases h : natToChars n.toNat with
      | nil => exact absurd h this
      | cons a t => simp [h]
  | .str s => exact dumpKey_length_pos s
  | .arr xs => simp [dumpsChars]
  | .obj kvs => simp [dumpsChars]

end

theorem tDump_length_pos (t : List JVal) : 0 < (tDump t).length := by
  cases t <;> simp [tDump]

theorem mtDump_length_pos (t : List (String × JVal)) : 0 < (mtDump t).length := by
  cases t with
  | nil => simp [mtDump]
  | cons a t => rcases a with ⟨k, v⟩; simp [mtDump]

mutual

theorem jfuel_le (j : JVal) : jfuel j ≤ (dumpsChars j).length := by
  match j with
  | .null | .bool true | .bool false => simp [jfuel, dumpsChars]
  | .int n => simpa [jfuel] using dumpsChars_length_pos (.int n)
  | .str s => simpa [jfuel] using dumpKey_length_pos s
  | .arr xs =>
    have h := eFuel_le xs
    simp only [jfuel, dumpsChars, List.length_cons]
    omega
  | .obj kvs =>
    have h := mFuel_le kvs
    simp only [jfuel, dumpsChars, List.length_cons]
    omega

theorem eFuel_le (xs : List JVal) : eFuel xs ≤ (eDump xs).length := by
  match xs with
  | [] => simp [eFuel, eDump]
  | x :: t =>
    have h1 := jfuel_le x
    have h2 := tFuel_le t
    have h3 := dumpsChars_length_pos x
    have h4 := tDump_length_pos t
    simp only [eFuel, eDump, List.length_append]
    omega

theorem tFuel_le (xs : List JVal) : tFuel xs ≤ (tDump xs).length := by
  match xs with
  | [] => simp [tFuel, tDump]
  | x :: t =>
    have h1 := jfuel_le x
    have h2 := tFuel_le t
    have h3 := dumpsChars_length_pos x
    have h4 := tDump_length_pos t
    simp only [tFuel, tDump, List.length_cons, List.length_append]
    omega

theorem mFuel_le (kvs : List (String × JVal)) : mFuel kvs ≤ (mDump kvs).length := by
  match kvs with
  | [] => simp [mFuel, mDump]
  | (k, v) :: t =>
    have h1 := jfuel_le v
    have h2 := mtFuel_le t
    have h3 := dumpsChars_length_pos v
    have h4 := mtDump_length_pos t
    have h5 := dumpKey_length_pos k
    simp only [mFuel, mDump, List.length_append, List.length_cons]
    omega

theorem mtFuel_le (kvs : List (String × JVal)) : mtFuel kvs ≤ (mtDump kvs).length := by
  match kvs with
  | [] => simp [mtFuel, mtDump]
  | (k, v) :: t =>
    have h1 := jfuel_le v
    have h2 := mtFuel_le t
    have h3 := dumpsChars_length_pos v
    have h4 := mtDump_length_pos t
    have h5 := dumpKey_length_pos k
    simp only [mtFuel, mtDump, List.length_append, List.length_cons]
    omega

end

/-! ### `json.loads`: a recursive-descent parser

The parser accepts exactly the canonical texts `dumpsChars` produces (plus
the usual escape synonyms); it has no whitespace skipping and no float
production, modelling `json.loads` restricted to the canonical float-free
fragment.  Lone surrogate escapes are rejected (Lean `Char` cannot carry
them); `dumpsChars` never emits them. -/

theorem parseHex4_length {l rest : List Char} {n : Nat}
    (h : parseHex4 l = some (n, rest)) : rest.length + 4 = l.length := by
  unfold parseHex4 at h
  split at h
  · next a b c d r =>
    split at h
    · next =>
      simp only [Option.some.injEq, Prod.mk.injEq] at h
      obtain ⟨-, h2⟩ := h
      subst h2
      simp
    · exact absurd h (by simp)
  · exact absurd h (by simp)

/-- Single-character string escapes accepted after a backslash. -/
def unescCh (e : Char) : Option Char :=
  if e = '"' then some '"'
  else if e = '\\' then some '\\'
  else if e = '/' then some '/'
  else if e = 'b' then some (Char.ofNat 8)
  else if e = 'f' then some (Char.ofNat 12)
  else if e = 'n' then some (Char.ofNat 10)
  else if e = 'r' then some (Char.ofNat 13)
  else if e = 't' then some (Char.ofNat 9)
  else none

/-- Parse one `\uXXXX` escape (after the `\u`), including a following low
surrogate when the first code unit is a high surrogate.  Lone surrogates are
rejected. -/
def parseUEsc (l : List Char) : Option (Char × List Char) :=
  match parseHex4 l with
  | none => none
  | some (n, rest3) =>
    if 55296 ≤ n ∧ n ≤ 56319 then
      match rest3 with
      | b1 :: b2 :: rest4 =>
        if b1 = '\\' ∧ b2 = 'u' then
          match parseHex4 rest4 with
          | none => none
          | some (m, rest5) =>
            if 56320 ≤ m ∧ m ≤ 57343 then
              some (Char.ofNat (65536 + (n - 55296) * 1024 + (m - 56320)), rest5)
            else none
        else none
      | _ => none
    else if 56320 ≤ n ∧ n ≤ 57343 then none
    else some (Char.ofNat n, rest3)

theorem parseUEsc_length {l rest : List Char} {u : Char}
    (h : parseUEsc l = some (u, rest)) : rest.length < l.length := by
  unfold parseUEsc at h
  split at h
  · exact absurd h (by simp)
  · next n rest3 heq =>
    have h3 := parseHex4_length heq
    split at h
    · split at h
      · next b1 b2 rest4 =>
        split at h
        · split at h
          · exact absurd h (by simp)
          · next m rest5 heq2 =>
            have h5 := parseHex4_length heq2
            split at h
            · simp only [Option.some.injEq, Prod.mk.injEq] at h
              obtain ⟨-, h2⟩ := h
              subst h2
              simp only [List.length_cons] at h3
              omega
            · exact absurd h (by simp)
        · exact absurd h (by simp)
      · exact absurd h (by simp)
    · split at h
      · exact absurd h (by simp)
      · simp only [Option.some.injEq, Prod.mk.injEq] at h
        obtain ⟨-, h2⟩ := h
        subst h2
        omega

/-- Parse the body of a JSON string literal (after the opening quote) up to
and including the closing quote; returns the decoded characters and the
remaining input. -/
def parseStrBody (l : List Char) : Option (List Char × List Char) :=
  match l with
  | [] => none
  | c :: rest =>
    if c = '"' then some ([], rest)
    else if c = '\\' then
      match rest with
      | [] => none
      | e :: rest2 =>
        if e = 'u' then
          match hu : parseUEsc rest2 with
          | none => none
          | some (u, rest3) =>
            match parseStrBody rest3 with
            | some (cs, r) => some (u :: cs, r)
            | none => none
        else
          match unescCh e with
          | some u =>
            match parseStrBody rest2 with
            | some (cs, r) => some (u :: cs, r)
            | none => none
          | none => none
    else
      match parseStrBody rest with
      | some (cs, r) => some (c :: cs, r)
      | none => none
termination_by l.length
decreasing_by
  all_goals first
    | (simp only [List.length_cons]; omega)
    | (have hl := parseUEsc_length hu
       simp only [List.length_cons] at hl ⊢
       omega)

mutual

/-- One JSON value.  The fuel argument strictly decreases on every nested
call; `jfuel` bounds the fuel needed for canonical texts. -/
def parseVal : Nat → List Char → Option (JVal × List Char)
  | 0, _ => none
  | _ + 1, [] => none
  | fuel + 1, c :: rest =>
    if c = 'n' then
      match rest with
      | 'u' :: 'l' :: 'l' :: r => some (.null, r)
      | _ => none
    else if c = 't' then
      match rest with
      | 'r' :: 'u' :: 'e' :: r => some (.bool true, r)
      | _ => none
    else if c = 'f' then
      match rest with
      | 'a' :: 'l' :: 's' :: 'e' :: r => some (.bool false, r)
      | _ => none
    else if c = '"' then
      match parseStrBody rest with
      | some (cs, r) => some (.str (String.mk cs), r)
      | none => none
    else if c = '-' then
      match parseNatChars rest with
      | some (n, r) => some (.int (-(n : Int)), r)
      | none => none
    else if isDigitCh c then
      match parseNatChars (c :: rest) with
      | some (n, r) => some (.int (n : Int), r)
      | none => none
    else if c = '[' then parseElems fuel rest
    else if c = lbrace then parseMembers fuel rest
    else none

/-- Array contents after the opening bracket. -/
def parseElems : Nat → List Char → Option (JVal × List Char)
  | 0, _ => none
  | _ + 1, [] => none
  | fuel + 1, c :: rest =>
    if c = ']' then some (.arr [], rest)
    else
      match parseVal fuel (c :: rest) with
      | some (v, r1) =>
        match parseElemsTail fuel r1 with
        | some (vs, r2) => some (.arr (v :: vs), r2)
        | none => none
      | none => none

/-- Array contents after one element: a comma and another element, or the
closing bracket. -/
def parseElemsTail : Nat → List Char → Option (List JVal × List Char)
  | 0, _ => none
  | _ + 1, [] => none
  | fuel + 1, c :: rest =>
    if c = ']' then some ([], rest)
    else if c = ',' then
      match parseVal fuel rest with
      | some (v, r1) =>
        match parseElemsTail fuel r1 with
        | some (vs, r2) => some (v :: vs, r2)
        | none => none
      | none => none
    else none

/-- Object contents after the opening brace. -/
def parseMembers : Nat → List Char → Option (JVal × List Char)
  | 0, _ => none
  | _ + 1, [] => none
  | fuel + 1, c :: rest =>
    if c = rbrace then some (.obj [], rest)
    else if c = '"' then
      match parseStrBody rest with
      | some (ks, r1) =>
        match r1 with
        | ':' :: r2 =>
          match parseVal fuel r2 with
          | some (v, r3) =>
            match parseMembersTail fuel r3 with
            | some (kvs, r4) => some (.obj ((String.mk ks, v) :: kvs), r4)
            | none => none
          | none => none
        | _ => none
      | none => none
    else none

/-- Object contents after one member. -/
def parseMembersTail : Nat → List Char → Option (List (String × JVal) × List Char)
  | 0, _ => none
  | _ + 1, [] => none
  | fuel + 1, c :: rest =>
    if c = rbrace then some ([], rest)
    else if c = ',' then
      match rest with
      | '"' :: r0 =>
        match parseStrBody r0 with
        | some (ks, r1) =>
          match r1 with
          | ':' :: r2 =>
            match parseVal fuel r2 with
            | some (v, r3) =>
              match parseMembersTail fuel r3 with
              | some (kvs, r4) => some ((String.mk ks, v) :: kvs, r4)
              | none => none
            | none => none
          | _ => none
        | none => none
      | _ => none
    else none

end

/-- `json.loads` on a whole text: one value consuming the entire input. -/
def loads (s : String) : Option JVal :=
  match parseVal (s.data.length + 1) s.data with
  | some (v, []) => some v
  | _ => none

/-! ### Round trip: the parser inverts the serializer -/

theorem parseUEsc_bmp (n : Nat) (h9 : n < 65536) (hs : ¬(55296 ≤ n ∧ n ≤ 57343))
    (tail : List Char) :
    parseUEsc (toHex4 n ++ tail) = some (Char.ofNat n, tail) := by
  unfold parseUEsc
  rw [parseHex4_toHex4 n h9 tail]
  have hs1 : ¬(55296 ≤ n ∧ n ≤ 56319) := by omega
  have hs2 : ¬(56320 ≤ n ∧ n ≤ 57343) := by omega
  simp only [hs1, if_false, hs2]

theorem parseUEsc_pair (hi lo : Nat) (hhi1 : 55296 ≤ hi) (hhi2 : hi ≤ 56319)
    (hlo1 : 56320 ≤ lo) (hlo2 : lo ≤ 57343) (tail : List Char) :
    parseUEsc (toHex4 hi ++ ('\\' :: 'u' :: (toHex4 lo ++ tail))) =
      some (Char.ofNat (65536 + (hi - 55296) * 1024 + (lo - 56320)), tail) := by
  unfold parseUEsc
  rw [parseHex4_toHex4 hi (by omega)]
  simp only []
  rw [if_pos ⟨hhi1, hhi2⟩]
  simp only [Char.reduceEq, and_self, reduceIte]
  rw [parseHex4_toHex4 lo (by omega)]
  simp only []
  rw [if_pos ⟨hlo1, hlo2⟩]

theorem parseStrBody_uesc {rest2 rest3 s rest : List Char} {u : Char}
    (hu : parseUEsc rest2 = some (u, rest3))
    (ih : parseStrBody rest3 = some (s, rest)) :
    parseStrBody ('\\' :: 'u' :: rest2) = some (u :: s, rest) := by
  rw [parseStrBody.eq_def]
  simp only [Char.reduceEq, reduceIte, reduceCtorEq]
  split
  · next heq => rw [hu] at heq; exact absurd heq (by simp)
  · next u' r3 heq =>
    rw [hu] at heq
    obtain ⟨hu', hr3⟩ : u = u' ∧ rest3 = r3 := by simpa using heq
    subst hu'; subst hr3
    simp [ih]

theorem parseStrBody_escChar (c : Char) {tail s rest : List Char}
    (ih : parseStrBody tail = some (s, rest)) :
    parseStrBody (escChar c ++ tail) = some (c :: s, rest) := by
  have hvalid : c.toNat < 55296 ∨ (57343 < c.toNat ∧ c.toNat < 1114112) := c.valid
  by_cases h1 : c = '"'
  · subst h1
    rw [show escChar '"' = ['\\', '"'] from rfl]
    rw [parseStrBody.eq_def]
    simp [unescCh, ih]
  by_cases h2 : c = '\\'
  · subst h2
    rw [show escChar '\\' = ['\\', '\\'] from rfl]
    rw [parseStrBody.eq_def]
    simp [unescCh, ih]
  by_cases h3 : c = Char.ofNat 8
  · subst h3
    rw [show escChar (Char.ofNat 8) = ['\\', 'b'] from rfl]
    rw [parseStrBody.eq_def]
    simp [unescCh, ih]
  by_cases h4 : c = Char.ofNat 9
  · subst h4
    rw [show escChar (Char.ofNat 9) = ['\\', 't'] from rfl]
    rw [parseStrBody.eq_def]
    simp [unescCh, ih]
  by_cases h5 : c = Char.ofNat 10
  · subst h5
    rw [show escChar (Char.ofNat 10) = ['\\', 'n'] from rfl]
    rw [parseStrBody.eq_def]
    simp [unescCh, ih]
  by_cases h6 : c = Char.ofNat 12
  · subst h6
    rw [show escChar (Char.ofNat 12) = ['\\', 'f'] from rfl]
    rw [parseStrBody.eq_def]
    simp [unescCh, ih]
  by_cases h7 : c = Char.ofNat 13
  · subst h7
    rw [show escChar (Char.ofNat 13) = ['\\', 'r'] from rfl]
    rw [parseStrBody.eq_def]
    simp [unescCh, ih]
  by_cases h8 : c.toNat < 32 ∨ 127 ≤ c.toNat
  · by_cases h9 : c.toNat < 65536
    · have hesc : escChar c = '\\' :: 'u' :: toHex4 c.toNat := by
        simp [escChar, h1, h2, h3, h4, h5, h6, h7, h8, h9]
      rw [hesc]
      simp only [List.cons_append]
      exact parseStrBody_uesc (parseUEsc_bmp c.toNat h9 (by omega) tail
        |>.trans (by rw [Char.ofNat_toNat])) ih
    · have hesc : escChar c =
          ('\\' :: 'u' :: toHex4 (55296 + (c.toNat - 65536) / 1024)) ++
          ('\\' :: 'u' :: toHex4 (56320 + (c.toNat - 65536) % 1024)) := by
        simp [escChar, h1, h2, h3, h4, h5, h6, h7, h8, h9]
      rw [hesc]
      simp only [List.cons_append, List.append_assoc]
      have hdivlt : (c.toNat - 65536) / 1024 < 1024 := by omega
      have hmodlt : (c.toNat - 65536) % 1024 < 1024 := Nat.mod_lt _ (by omega)
      have hpair := parseUEsc_pair (55296 + (c.toNat - 65536) / 1024)
        (56320 + (c.toNat - 65536) % 1024) (by omega) (by omega) (by omega) (by omega) tail
      have harith : 65536 + (55296 + (c.toNat - 65536) / 1024 - 55296) * 1024 +
          (56320 + (c.toNat - 65536) % 1024 - 56320) = c.toNat := by
        have := Nat.div_add_mod (c.toNat - 65536) 1024
        omega
      rw [harith] at hpair
      exact parseStrBody_uesc (hpair.trans (by rw [Char.ofNat_toNat])) ih
  · have hesc : escChar c = [c] := by
      simp [escChar, h1, h2, h3, h4, h5, h6, h7, h8]
    rw [hesc]
    simp only [List.singleton_append]
    rw [parseStrBody.eq_def]
    simp only [h1, if_false, h2, ih]

theorem parseStrBody_round (s rest : List Char) :
    parseStrBody ((s.map escChar).flatten ++ '"' :: rest) = some (s, rest) := by
  induction s with
  | nil =>
    rw [List.map_nil, List.flatten_nil, List.nil_append, parseStrBody.eq_def]
    simp
  | cons c t ih =>
    simp only [List.map_cons, List.flatten_cons, List.append_assoc]
    exact parseStrBody_escChar c ih

theorem strMk_data (s : String) : String.mk s.data = s := rfl

theorem one_le_jfuel (j : JVal) : 1 ≤ jfuel j := by
  cases j <;> simp [jfuel]

theorem one_le_eFuel (xs : List JVal) : 1 ≤ eFuel xs := by
  cases xs <;> simp [eFuel]

theorem one_le_tFuel (xs : List JVal) : 1 ≤ tFuel xs := by
  cases xs <;> simp [tFuel]

theorem one_le_mFuel (kvs : List (String × JVal)) : 1 ≤ mFuel kvs := by
  cases kvs with
  | nil => simp [mFuel]
  | cons a t => rcases a with ⟨k, v⟩; simp [mFuel]

theorem one_le_mtFuel (kvs : List (String × JVal)) : 1 ≤ mtFuel kvs := by
  cases kvs with
  | nil => simp [mtFuel]
  | cons a t => rcases a with ⟨k, v⟩; simp [mtFuel]

theorem digit_head_facts {c : Char} (h : isDigitCh c = true) :
    ¬c = 'n' ∧ ¬c = 't' ∧ ¬c = 'f' ∧ ¬c = '"' ∧ ¬c = '-' := by
  refine ⟨?_, ?_, ?_, ?_, ?_⟩ <;> (intro h'; subst h'; exact absurd h (by decide))

theorem dumps_head_ne_rbracket (j : JVal) :
    ∀ c cs, dumpsChars j = c :: cs → ¬c = ']' := by
  intro c cs h hc
  subst hc
  cases j with
  | null => simp [dumpsChars] at h
  | bool b => cases b <;> simp [dumpsChars] at h
  | int n =>
    simp only [dumpsChars] at h
    rw [intToChars] at h
    split at h
    · rw [List.cons.injEq] at h
      exact absurd h.1.symm (by decide)
    · have : (']' : Char) ∈ natToChars n.toNat := by
        rw [h]; exact List.mem_cons_self _ _
      have := mem_natToChars_isDigit n.toNat _ this
      exact absurd this (by decide)
  | str s =>
    simp only [dumpsChars, dumpKey] at h
    injection h with h1 h2
    exact absurd h1 (by decide)
  | arr l => simp [dumpsChars] at h
  | obj l =>
    simp only [dumpsChars] at h
    injection h with h1 h2
    exact absurd h1 (by decide)

theorem headIsDigit_tDump (t : List JVal) (rest : List Char) :
    headIsDigit (tDump t ++ rest) = false := by
  cases t <;> simp [tDump, headIsDigit, isDigitCh]

theorem headIsDigit_mtDump (t : List (String × JVal)) (rest : List Char) :
    headIsDigit (mtDump t ++ rest) = false := by
  cases t with
  | nil => simp [mtDump, headIsDigit, rbrace, isDigitCh]
  | cons a t0 =>
    rcases a with ⟨k, v⟩
    simp [mtDump, headIsDigit, isDigitCh]

/-- Joint round trip for the five parser components, by induction on fuel:
with enough fuel, each parser recovers the value whose canonical dump is a
prefix of the input (for `parseVal` the leftover input must not start with a
digit, as number tokens are maximal). -/
theorem parse_round (fuel : Nat) :
    (∀ j rest, jfuel j ≤ fuel → headIsDigit rest = false →
      parseVal fuel (dumpsChars j ++ rest) = some (j, rest)) ∧
    (∀ xs rest, eFuel xs ≤ fuel →
      parseElems fuel (eDump xs ++ rest) = some (.arr xs, rest)) ∧
    (∀ xs rest, tFuel xs ≤ fuel →
      parseElemsTail fuel (tDump xs ++ rest) = some (xs, rest)) ∧
    (∀ kvs rest, mFuel kvs ≤ fuel →
      parseMembers fuel (mDump kvs ++ rest) = some (.obj kvs, rest)) ∧
    (∀ kvs rest, mtFuel kvs ≤ fuel →
      parseMembersTail fuel (mtDump kvs ++ rest) = some (kvs, rest)) := by
  induction fuel with
  | zero =>
    refine ⟨?_, ?_, ?_, ?_, ?_⟩
    · intro j rest h _; exact absurd h (by have := one_le_jfuel j; omega)
    · intro xs rest h; exact absurd h (by have := one_le_eFuel xs; omega)
    · intro xs rest h; exact absurd h (by have := one_le_tFuel xs; omega)
    · intro kvs rest h; exact absurd h (by have := one_le_mFuel kvs; omega)
    · intro kvs rest h; exact absurd h (by have := one_le_mtFuel kvs; omega)
  | succ fuel ih =>
    obtain ⟨ihP, ihQ, ihQT, ihR, ihRT⟩ := ih
    refine ⟨?_, ?_, ?_, ?_, ?_⟩
    · -- parseVal
      intro j rest hle hrest
      cases j with
      | null => simp [dumpsChars, parseVal]
      | bool b => cases b <;> simp [dumpsChars, parseVal]
      | int n =>
        simp only [dumpsChars]
        rw [intToChars]
        by_cases hneg : n < 0
        · rw [if_pos hneg]
          simp only [List.cons_append]
          rw [parseVal.eq_def]
          simp only [Char.reduceEq, reduceIte]
          rw [parseNatChars_natToChars n.natAbs rest hrest]
          simp only []
          have hv : -((n.natAbs : Nat) : Int) = n := by omega
          rw [hv]
        · rw [if_neg hneg]
          have hne := natToChars_ne_nil n.toNat
          have hmem := mem_natToChars_isDigit n.toNat
          cases hd : natToChars n.toNat with
          | nil => exact absurd hd hne
          | cons c cs =>
            have hcdig : isDigitCh c = true := hmem c (by rw [hd]; exact List.mem_cons_self _ _)
            obtain ⟨hn', ht', hf', hq', hm'⟩ := digit_head_facts hcdig
            simp only [List.cons_append]
            rw [parseVal.eq_def]
            simp only [hn', ht', hf', hq', hm', if_false, hcdig, if_true, reduceIte]
            rw [← List.cons_append, ← hd, parseNatChars_natToChars n.toNat rest hrest]
            simp only []
            have hv : ((n.toNat : Nat) : Int) = n := by omega
            rw [hv]
      | str s =>
        show parseVal (fuel + 1) (dumpKey s ++ rest) = _
        rw [dumpKey]
        simp only [List.cons_append, List.append_assoc, List.singleton_append,
          List.nil_append]
        rw [parseVal.eq_def]
        simp only [Char.reduceEq, reduceIte]
        rw [parseStrBody_round s.data rest]
      | arr xs =>
        simp only [dumpsChars, List.cons_append]
        rw [parseVal.eq_def]
        simp only [Char.reduceEq, reduceIte, show isDigitCh '[' = false by decide,
          Bool.false_eq_true, if_false]
        apply ihQ
        simp only [jfuel] at hle
        omega
      | obj kvs =>
        simp only [dumpsChars, List.cons_append]
        rw [parseVal.eq_def]
        simp only [show ¬(lbrace = 'n') by decide, show ¬(lbrace = 't') by decide,
          show ¬(lbrace = 'f') by decide, show ¬(lbrace = '"') by decide,
          show ¬(lbrace = '-') by decide, show isDigitCh lbrace = false by decide,
          show ¬(lbrace = '[') by decide, if_false, Bool.false_eq_true, reduceIte]
        apply ihR
        simp only [jfuel] at hle
        omega
    · -- parseElems
      intro xs rest hle
      cases xs with
      | nil =>
        simp only [eDump, List.cons_append, List.nil_append]
        rw [parseElems.eq_def]
        simp
      | cons x t =>
        simp only [eDump, List.append_assoc]
        have hpos := dumpsChars_length_pos x
        cases hd : dumpsChars x with
        | nil => rw [hd] at hpos; simp at hpos
        | cons c cs =>
          have hcne : ¬c = ']' := dumps_head_ne_rbracket x c cs hd
          simp only [List.cons_append]
          rw [parseElems.eq_def]
          simp only [hcne, if_false, reduceIte]
          rw [← List.cons_append, ← hd]
          simp only [eFuel] at hle
          rw [ihP x (tDump t ++ rest) (by omega) (headIsDigit_tDump t rest)]
          simp only []
          rw [ihQT t rest (by omega)]
    · -- parseElemsTail
      intro xs rest hle
      cases xs with
      | nil =>
        simp only [tDump, List.cons_append, List.nil_append]
        rw [parseElemsTail.eq_def]
        simp
      | cons x t =>
        simp only [tDump, List.cons_append, List.append_assoc]
        rw [parseElemsTail.eq_def]
        simp only [Char.reduceEq, reduceIte]
        simp only [tFuel] at hle
        rw [ihP x (tDump t ++ rest) (by omega) (headIsDigit_tDump t rest)]
        simp only []
        rw [ihQT t rest (by omega)]
    · -- parseMembers
      intro kvs rest hle
      cases kvs with
      | nil =>
        simp only [mDump, List.cons_append, List.nil_append]
        rw [parseMembers.eq_def]
        simp
      | cons kv t =>
        rcases kv with ⟨k, v⟩
        simp only [mDump, dumpKey, List.cons_append, List.append_assoc,
          List.singleton_append]
        rw [parseMembers.eq_def]
        simp only [show ¬(('"' : Char) = rbrace) by decide, Char.reduceEq, if_false,
          reduceIte]
        rw [parseStrBody_round k.data]
        simp only [List.nil_append]
        simp only [mFuel] at hle
        rw [ihP v (mtDump t ++ rest) (by omega) (headIsDigit_mtDump t rest)]
        simp only []
        rw [ihRT t rest (by omega)]
    · -- parseMembersTail
      intro kvs rest hle
      cases kvs with
      | nil =>
        simp only [mtDump, List.cons_append, List.nil_append]
        rw [parseMembersTail.eq_def]
        simp [rbrace]
      | cons kv t =>
        rcases kv with ⟨k, v⟩
        simp only [mtDump, dumpKey, List.cons_append, List.append_assoc,
          List.singleton_append]
        rw [parseMembersTail.eq_def]
        simp only [show ¬((',' : Char) = rbrace) by decide, Char.reduceEq, if_false,
          reduceIte]
        rw [parseStrBody_round k.data]
        simp only [List.nil_append]
        simp only [mtFuel] at hle
        rw [ihP v (mtDump t ++ rest) (by omega) (headIsDigit_mtDump t rest)]
        simp only []
        rw [ihRT t rest (by omega)]

/-- `json.loads` inverts `json.dumps` on the float-free fragment. -/
theorem loads_dumps (j : JVal) : loads (dumps j) = some j := by
  unfold loads dumps
  have hfuel : jfuel j ≤ (dumpsChars j).length + 1 := by
    have := jfuel_le j
    omega
  have h := (parse_round ((dumpsChars j).length + 1)).1 j [] hfuel rfl
  rw [List.append_nil] at h
  simp only [strMk_data]
  rw [h]

/-! ### ASCII output of the serializer

`json.dumps` with its default `ensure_ascii=True` emits only ASCII, so the
UTF-8 encoding of the dumped text is just the character codes. -/

theorem hexDigitChar_ascii (d : Nat) : (hexDigitChar d).toNat < 128 := by
  unfold hexDigitChar
  split <;> decide

theorem digitChar_ascii (d : Nat) : (digitChar d).toNat < 128 := by
  unfold digitChar
  split <;> decide

theorem natToChars_ascii (n : Nat) : ∀ c ∈ natToChars n, c.toNat < 128 := by
  induction n using Nat.strong_induction_on with
  | _ n ih =>
    unfold natToChars
    split
    · intro c hc
      simp only [List.mem_singleton] at hc
      subst hc; exact digitChar_ascii n
    · intro c hc
      rcases List.mem_append.1 hc with h1 | h1
      · exact ih (n / 10) (Nat.div_lt_self (by omega) (by omega)) c h1
      · simp only [List.mem_singleton] at h1
        subst h1; exact digitChar_ascii _

theorem mem_uEscChars {c' : Char} {n : Nat} (h : c' ∈ '\\' :: 'u' :: toHex4 n) :
    c'.toNat < 128 := by
  simp only [toHex4, List.mem_cons, List.not_mem_nil, or_false] at h
  rcases h with h | h | h | h | h | h <;> first
    | (subst h; decide)
    | (subst h; exact hexDigitChar_ascii _)

theorem escChar_ascii (c : Char) : ∀ c' ∈ escChar c, c'.toNat < 128 := by
  intro c' hc'
  by_cases h1 : c = '"'
  · subst h1
    rw [show escChar '"' = ['\\', '"'] from rfl] at hc'
    rcases List.mem_cons.1 hc' with h | h
    · subst h; decide
    · simp only [List.mem_singleton] at h; subst h; decide
  by_cases h2 : c = '\\'
  · subst h2
    rw [show escChar '\\' = ['\\', '\\'] from rfl] at hc'
    rcases List.mem_cons.1 hc' with h | h
    · subst h; decide
    · simp only [List.mem_singleton] at h; subst h; decide
  by_cases h3 : c = Char.ofNat 8
  · subst h3
    rw [show escChar (Char.ofNat 8) = ['\\', 'b'] from rfl] at hc'
    rcases List.mem_cons.1 hc' with h | h
    · subst h; decide
    · simp only [List.mem_singleton] at h; subst h; decide
  by_cases h4 : c = Char.ofNat 9
  · subst h4
    rw [show escChar (Char.ofNat 9) = ['\\', 't'] from rfl] at hc'
    rcases List.mem_cons.1 hc' with h | h
    · subst h; decide
    · simp only [List.mem_singleton] at h; subst h; decide
  by_cases h5 : c = Char.ofNat 10
  · subst h5
    rw [show escChar (Char.ofNat 10) = ['\\', 'n'] from rfl] at hc'
    rcases List.mem_cons.1 hc' with h | h
    · subst h; decide
    · simp only [List.mem_singleton] at h; subst h; decide
  by_cases h6 : c = Char.ofNat 12
  · subst h6
    rw [show escChar (Char.ofNat 12) = ['\\', 'f'] from rfl] at hc'
    rcases List.mem_cons.1 hc' with h | h
    · subst h; decide
    · simp only [List.mem_singleton] at h; subst h; decide
  by_cases h7 : c = Char.ofNat 13
  · subst h7
    rw [show escChar (Char.ofNat 13) = ['\\', 'r'] from rfl] at hc'
    rcases List.mem_cons.1 hc' with h | h
    · subst h; decide
    · simp only [List.mem_singleton] at h; subst h; decide
  by_cases h8 : c.toNat < 32 ∨ 127 ≤ c.toNat
  · by_cases h9 : c.toNat < 65536
    · rw [show escChar c = '\\' :: 'u' :: toHex4 c.toNat by
        simp [escChar, h1, h2, h3, h4, h5, h6, h7, h8, h9]] at hc'
      exact mem_uEscChars hc'
    · rw [show escChar c =
          ('\\' :: 'u' :: toHex4 (55296 + (c.toNat - 65536) / 1024)) ++
          ('\\' :: 'u' :: toHex4 (56320 + (c.toNat - 65536) % 1024)) by
        simp [escChar, h1, h2, h3, h4, h5, h6, h7, h8, h9]] at hc'
      rcases List.mem_append.1 hc' with h | h
      · exact mem_uEscChars h
      · exact mem_uEscChars h
  · rw [show escChar c = [c] by simp [escChar, h1, h2, h3, h4, h5, h6, h7, h8]] at hc'
    simp only [List.mem_singleton] at hc'
    subst hc'
    omega

theorem dumpKey_ascii (s : String) : ∀ c ∈ dumpKey s, c.toNat < 128 := by
  intro c hc
  unfold dumpKey at hc
  rcases List.mem_cons.1 hc with h | h
  · subst h; decide
  · rcases List.mem_append.1 h with h2 | h2
    · rw [List.mem_flatten] at h2
      obtain ⟨l, hl, hcl⟩ := h2
      rw [List.mem_map] at hl
      obtain ⟨c0, -, hc0⟩ := hl
      subst hc0
      exact escChar_ascii c0 c hcl
    · simp only [List.mem_singleton] at h2
      subst h2; decide

mutual

theorem dumpsChars_ascii (j : JVal) : ∀ c ∈ dumpsChars j, c.toNat < 128 := by
  match j with
  | .null =>
    intro c hc
    simp only [dumpsChars, List.mem_cons, List.not_mem_nil, or_false] at hc
    rcases hc with h | h | h | h <;> (subst h; decide)
  | .bool true =>
    intro c hc
    simp only [dumpsChars, List.mem_cons, List.not_mem_nil, or_false] at hc
    rcases hc with h | h | h | h <;> (subst h; decide)
  | .bool false =>
    intro c hc
    simp only [dumpsChars, List.mem_cons, List.not_mem_nil, or_false] at hc
    rcases hc with h | h | h | h | h <;> (subst h; decide)
  | .int n =>
    intro c hc
    simp only [dumpsChars] at hc
    rw [intToChars] at hc
    split at hc
    · rcases List.mem_cons.1 hc with h | h
      · subst h; decide
      · exact natToChars_ascii _ c h
    · exact natToChars_ascii _ c hc
  | .str s =>
    intro c hc
    exact dumpKey_ascii s c hc
  | .arr xs =>
    intro c hc
    simp only [dumpsChars, List.mem_cons] at hc
    rcases hc with h | h
    · subst h; decide
    · exact eDump_ascii xs c h
  | .obj kvs =>
    intro c hc
    simp only [dumpsChars, List.mem_cons] at hc
    rcases hc with h | h
    · subst h; decide
    · exact mDump_ascii kvs c h

theorem eDump_ascii (xs : List JVal) : ∀ c ∈ eDump xs, c.toNat < 128 := by
  match xs with
  | [] =>
    intro c hc
    simp only [eDump, List.mem_singleton] at hc
    subst hc; decide
  | x :: t =>
    intro c hc
    simp only [eDump, List.mem_append] at hc
    rcases hc with h | h
    · exact dumpsChars_ascii x c h
    · exact tDump_ascii t c h

theorem tDump_ascii (xs : List JVal) : ∀ c ∈ tDump xs, c.toNat < 128 := by
  match xs with
  | [] =>
    intro c hc
    simp only [tDump, List.mem_singleton] at hc
    subst hc; decide
  | x :: t =>
    intro c hc
    simp only [tDump, List.mem_cons, List.mem_append] at hc
    rcases hc with h | h | h
    · subst h; decide
    · exact dumpsChars_ascii x c h
    · exact tDump_ascii t c h

theorem mDump_ascii (kvs : List (String × JVal)) : ∀ c ∈ mDump kvs, c.toNat < 128 := by
  match kvs with
  | [] =>
    intro c hc
    simp only [mDump, List.mem_singleton] at hc
    subst hc; decide
  | (k, v) :: t =>
    intro c hc
    simp only [mDump, List.mem_append, List.mem_cons] at hc
    rcases hc with h | h | h | h
    · exact dumpKey_ascii k c h
    · subst h; decide
    · exact dumpsChars_ascii v c h
    · exact mtDump_ascii t c h

theorem mtDump_ascii (kvs : List (String × JVal)) : ∀ c ∈ mtDump kvs, c.toNat < 128 := by
  match kvs with
  | [] =>
    intro c hc
    simp only [mtDump, List.mem_singleton] at hc
    subst hc; decide
  | (k, v) :: t =>
    intro c hc
    simp only [mtDump, List.mem_cons, List.mem_append] at hc
    rcases hc with h | h | h | h | h
    · subst h; decide
    · exact dumpKey_ascii k c h
    · subst h; decide
    · exact dumpsChars_ascii v c h
    · exact mtDump_ascii t c h

end

/-! ### URL-safe base64 (`base64.urlsafe_b64encode` / `urlsafe_b64decode`)

Bytes are `Nat`s below 256.  The decoder models Python's lenient behaviour:
characters outside the (URL-safe) alphabet and `=` are discarded, then the
kept length must be a multiple of 4. -/

/-- The URL-safe alphabet character for one 6-bit value (inputs ≥ 63 collapse
to `'_'`; only inputs < 64 are ever used). -/
def b64Char (i : Nat) : Char :=
  if i < 26 then Char.ofNat (65 + i)
  else if i < 52 then Char.ofNat (97 + (i - 26))
  else if i < 62 then Char.ofNat (48 + (i - 52))
  else if i = 62 then '-'
  else '_'

/-- Index of a character in the URL-safe alphabet. -/
def b64Index (c : Char) : Option Nat :=
  if 65 ≤ c.toNat ∧ c.toNat ≤ 90 then some (c.toNat - 65)
  else if 97 ≤ c.toNat ∧ c.toNat ≤ 122 then some (c.toNat - 97 + 26)
  else if 48 ≤ c.toNat ∧ c.toNat ≤ 57 then some (c.toNat - 48 + 52)
  else if c = '-' then some 62
  else if c = '_' then some 63
  else none

theorem toNat_ofNat_lt {n : Nat} (h : n < 55296) : (Char.ofNat n).toNat = n := by
  rw [Char.ofNat, dif_pos (Or.inl h)]
  rfl

theorem b64Index_b64Char {i : Nat} (h : i < 64) : b64Index (b64Char i) = some i := by
  unfold b64Char
  split_ifs with h1 h2 h3 h4
  · unfold b64Index
    rw [toNat_ofNat_lt (by omega), if_pos ⟨by omega, by omega⟩]
    congr 1
    omega
  · unfold b64Index
    rw [toNat_ofNat_lt (by omega), if_neg (by omega), if_pos ⟨by omega, by omega⟩]
    congr 1
    omega
  · unfold b64Index
    rw [toNat_ofNat_lt (by omega), if_neg (by omega), if_neg (by omega),
      if_pos ⟨by omega, by omega⟩]
    congr 1
    omega
  · subst h4; decide
  · have h63 : i = 63 := by omega
    subst h63; decide

theorem b64Char_ne_eq {i : Nat} (h : i < 64) : ¬b64Char i = '=' := by
  intro he
  have h2 := b64Index_b64Char h
  rw [he, show b64Index '=' = none from by decide] at h2
  exact Option.noConfusion h2

theorem b64Char_ascii (i : Nat) : (b64Char i).toNat < 128 := by
  unfold b64Char
  split_ifs with h1 h2 h3 h4
  · rw [toNat_ofNat_lt (by omega)]; omega
  · rw [toNat_ofNat_lt (by omega)]; omega
  · rw [toNat_ofNat_lt (by omega)]; omega
  · decide
  · decide

/-- `base64.urlsafe_b64encode`, 3 bytes to 4 characters with `=` padding. -/
def b64EncodeBytes : List Nat → List Char
  | [] => []
  | [b1] => [b64Char (b1 / 4), b64Char (b1 % 4 * 16), '=', '=']
  | [b1, b2] => [b64Char (b1 / 4), b64Char (b1 % 4 * 16 + b2 / 16), b64Char (b2 % 16 * 4), '=']
  | b1 :: b2 :: b3 :: rest =>
    b64Char (b1 / 4) :: b64Char (b1 % 4 * 16 + b2 / 16) ::
    b64Char (b2 % 16 * 4 + b3 / 64) :: b64Char (b3 % 64) :: b64EncodeBytes rest

/-- Decode kept characters in groups of four; `=` padding only at the end. -/
def b64DecodeGroups : List Char → Option (List Nat)
  | [] => some []
  | c1 :: c2 :: c3 :: c4 :: rest =>
    match b64Index c1, b64Index c2 with
    | some v1, some v2 =>
      if c3 = '=' then
        if c4 = '=' ∧ rest = [] then some [v1 * 4 + v2 / 16] else none
      else
        match b64Index c3 with
        | some v3 =>
          if c4 = '=' then
            if rest = [] then some [v1 * 4 + v2 / 16, v2 % 16 * 16 + v3 / 4] else none
          else
            match b64Index c4 with
            | some v4 =>
              match b64DecodeGroups rest with
              | some bs =>
                some ((v1 * 4 + v2 / 16) :: (v2 % 16 * 16 + v3 / 4) :: (v3 % 4 * 64 + v4) :: bs)
              | none => none
            | none => none
        | none => none
    | _, _ => none
  | _ => none

/-- `base64.urlsafe_b64decode`: discard foreign characters, require the kept
length to be a multiple of four, then decode groups. -/
def b64Decode (l : List Char) : Option (List Nat) :=
  let kept := l.filter (fun c => (b64Index c).isSome || c = '=')
  if kept.length % 4 = 0 then b64DecodeGroups kept else none

theorem mem_encode_keep (bs : List Nat) (hb : ∀ b ∈ bs, b < 256) :
    ∀ c ∈ b64EncodeBytes bs, ((b64Index c).isSome || c = '=') = true := by
  induction bs using b64EncodeBytes.induct with
  | case1 =>
    intro c hc
    simp [b64EncodeBytes] at hc
  | case2 b1 =>
    intro c hc
    have hb1 : b1 < 256 := hb b1 (by simp)
    simp only [b64EncodeBytes, List.mem_cons, List.not_mem_nil, or_false] at hc
    rcases hc with h | h | h | h <;> subst h
    · rw [b64Index_b64Char (by omega)]; rfl
    · rw [b64Index_b64Char (by omega)]; rfl
    · decide
    · decide
  | case3 b1 b2 =>
    intro c hc
    have hb1 : b1 < 256 := hb b1 (by simp)
    have hb2 : b2 < 256 := hb b2 (by simp)
    simp only [b64EncodeBytes, List.mem_cons, List.not_mem_nil, or_false] at hc
    rcases hc with h | h | h | h <;> subst h
    · rw [b64Index_b64Char (by omega)]; rfl
    · rw [b64Index_b64Char (by omega)]; rfl
    · rw [b64Index_b64Char (by omega)]; rfl
    · decide
  | case4 b1 b2 b3 rest ih =>
    intro c hc
    have hb1 : b1 < 256 := hb b1 (by simp)
    have hb2 : b2 < 256 := hb b2 (by simp)
    have hb3 : b3 < 256 := hb b3 (by simp)
    simp only [b64EncodeBytes, List.mem_cons] at hc
    rcases hc with h | h | h | h | h
    · subst h; rw [b64Index_b64Char (by omega)]; rfl
    · subst h; rw [b64Index_b64Char (by omega)]; rfl
    · subst h; rw [b64Index_b64Char (by omega)]; rfl
    · subst h; rw [b64Index_b64Char (by omega)]; rfl
    · exact ih (fun b hbm => hb b (by simp [hbm])) c h

theorem length_encode_mod4 (bs : List Nat) : (b64EncodeBytes bs).length % 4 = 0 := by
  induction bs using b64EncodeBytes.induct with
  | case1 => rfl
  | case2 b1 => simp [b64EncodeBytes]
  | case3 b1 b2 => simp [b64EncodeBytes]
  | case4 b1 b2 b3 rest ih =>
    simp only [b64EncodeBytes, List.length_cons]
    omega

theorem b64DecodeGroups_encode (bs : List Nat) (hb : ∀ b ∈ bs, b < 256) :
    b64DecodeGroups (b64EncodeBytes bs) = some bs := by
  induction bs using b64EncodeBytes.induct with
  | case1 => rfl
  | case2 b1 =>
    have hb1 : b1 < 256 := hb b1 (by simp)
    show b64DecodeGroups [b64Char (b1 / 4), b64Char (b1 % 4 * 16), '=', '='] = some [b1]
    rw [b64DecodeGroups]
    rw [b64Index_b64Char (by omega), b64Index_b64Char (by omega)]
    simp only [Char.reduceEq, and_self, reduceIte, Option.some.injEq, List.cons.injEq,
      and_true]
    omega
  | case3 b1 b2 =>
    have hb1 : b1 < 256 := hb b1 (by simp)
    have hb2 : b2 < 256 := hb b2 (by simp)
    show b64DecodeGroups [b64Char (b1 / 4), b64Char (b1 % 4 * 16 + b2 / 16),
      b64Char (b2 % 16 * 4), '='] = some [b1, b2]
    rw [b64DecodeGroups]
    rw [b64Index_b64Char (by omega), b64Index_b64Char (by omega)]
    simp only []
    rw [if_neg (b64Char_ne_eq (by omega))]
    rw [b64Index_b64Char (by omega)]
    simp only [Char.reduceEq, reduceIte, Option.some.injEq, List.cons.injEq, and_true]
    exact ⟨by omega, by omega⟩
  | case4 b1 b2 b3 rest ih =>
    have hb1 : b1 < 256 := hb b1 (by simp)
    have hb2 : b2 < 256 := hb b2 (by simp)
    have hb3 : b3 < 256 := hb b3 (by simp)
    show b64DecodeGroups (b64Char (b1 / 4) :: b64Char (b1 % 4 * 16 + b2 / 16) ::
      b64Char (b2 % 16 * 4 + b3 / 64) :: b64Char (b3 % 64) :: b64EncodeBytes rest) =
      some (b1 :: b2 :: b3 :: rest)
    rw [b64DecodeGroups]
    rw [b64Index_b64Char (by omega), b64Index_b64Char (by omega)]
    simp only []
    rw [if_neg (b64Char_ne_eq (by omega))]
    rw [b64Index_b64Char (by omega)]
    simp only []
    rw [if_neg (b64Char_ne_eq (by omega))]
    rw [b64Index_b64Char (by omega)]
    simp only []
    rw [ih (fun b hbm => hb b (by simp [hbm]))]
    simp only [Option.some.injEq, List.cons.injEq, and_true]
    exact ⟨by omega, by omega, by omega⟩

/-- Round trip of the base64 codec on byte lists. -/
theorem b64Decode_encode (bs : List Nat) (hb : ∀ b ∈ bs, b < 256) :
    b64Decode (b64EncodeBytes bs) = some bs := by
  unfold b64Decode
  have hkeep : (b64EncodeBytes bs).filter (fun c => (b64Index c).isSome || c = '=') =
      b64EncodeBytes bs :=
    List.filter_eq_self.mpr (mem_encode_keep bs hb)
  simp only [hkeep, length_encode_mod4 bs, reduceIte]
  exact b64DecodeGroups_encode bs hb

/-! ### Python runtime errors -/

/-- The Python exceptions the embedded code can raise. -/
inductive PyErr where
  | typeError
  | valueError
  | keyError
  | indexError
  | attributeError
  | assertionError
  deriving Repr, DecidableEq

/-! ### `_b64` / `_unb64` (api_model_customers.py lines 100-112) -/

/-- `str.encode()`: UTF-8 bytes.  `_b64` only ever encodes the ASCII output
of `json.dumps(..., ensure_ascii=True)`, for which UTF-8 is the identity on
code points; the model maps every character to its code point (exact on
ASCII, and non-ASCII code points are discarded by the base64 decoder exactly
as their UTF-8 bytes would be). -/
def strBytes (s : String) : List Nat := s.data.map Char.toNat

/-- `bytes.decode()` (UTF-8) restricted to ASCII; multi-byte sequences are
modelled as failures (the decode path only succeeds on `_b64` output, which
is ASCII). -/
def asciiDecode (bs : List Nat) : Option String :=
  if bs.all (fun b => b < 128) then some (String.mk (bs.map Char.ofNat)) else none

/-- `_b64` (lines 100-103), applied to an already-JSON-safe value: compact
JSON dump, UTF-8 encode, base64url encode, decode to text. -/
def b64OfJson (j : JVal) : String := String.mk (b64EncodeBytes (strBytes (dumps j)))

/-- `_unb64` (lines 106-112): falsy input gives `\x7b\x7d`; any failure
(bad base64, bad UTF-8, bad JSON) gives `\x7b\x7d`; otherwise the parsed
JSON value — note the source performs no shape check, so a non-object parse
is returned as-is. -/
def unb64 (t : Option String) : JVal :=
  match t with
  | none => .obj []
  | some s =>
    if s = "" then .obj []
    else
      match b64Decode s.data with
      | none => .obj []
      | some bs =>
        match asciiDecode bs with
        | none => .obj []
        | some txt =>
          match loads txt with
          | none => .obj []
          | some j => j

theorem b64EncodeBytes_ne_nil {bs : List Nat} (h : bs ≠ []) : b64EncodeBytes bs ≠ [] := by
  match bs with
  | [] => exact absurd rfl h
  | [b1] => simp [b64EncodeBytes]
  | [b1, b2] => simp [b64EncodeBytes]
  | b1 :: b2 :: b3 :: rest => simp [b64EncodeBytes]

theorem strMk_ne_empty {l : List Char} (h : l ≠ []) : String.mk l ≠ "" := by
  intro he
  exact h (congrArg String.data he)

theorem b64OfJson_ne_empty (j : JVal) : b64OfJson j ≠ "" := by
  apply strMk_ne_empty
  apply b64EncodeBytes_ne_nil
  have hpos := dumpsChars_length_pos j
  show (dumpsChars j).map Char.toNat ≠ []
  intro he
  rw [← List.length_eq_zero, List.length_map] at he
  omega

/-- Full codec round trip: `_unb64(_b64(d)) == d` for JSON-safe `d`. -/
theorem unb64_b64OfJson (j : JVal) : unb64 (some (b64OfJson j)) = j := by
  unfold unb64
  simp only []
  rw [if_neg (b64OfJson_ne_empty j)]
  have hbytes : ∀ b ∈ strBytes (dumps j), b < 256 := by
    intro b hb
    unfold strBytes dumps at hb
    rw [List.mem_map] at hb
    obtain ⟨c, hc, hbc⟩ := hb
    subst hbc
    have := dumpsChars_ascii j c hc
    omega
  have hdec : b64Decode (b64OfJson j).data = some (strBytes (dumps j)) := by
    show b64Decode (b64EncodeBytes (strBytes (dumps j))) = _
    exact b64Decode_encode _ hbytes
  rw [hdec]
  simp only []
  have hall : (strBytes (dumps j)).all (fun b => b < 128) = true := by
    rw [List.all_eq_true]
    intro b hb
    unfold strBytes dumps at hb
    rw [List.mem_map] at hb
    obtain ⟨c, hc, hbc⟩ := hb
    subst hbc
    simpa using dumpsChars_ascii j c hc
  unfold asciiDecode
  rw [if_pos hall]
  have hmap : (strBytes (dumps j)).map Char.ofNat = dumpsChars j := by
    unfold strBytes dumps
    rw [List.map_map]
    simp [Function.comp_def]
  rw [hmap]
  simp only []
  rw [show String.mk (dumpsChars j) = dumps j from rfl, loads_dumps j]

/-! ### Decoded-cursor access (`_build_sql` line 248) -/

/-- Python truthiness of a JSON value. -/
def jTruthy : JVal → Bool
  | .null => false
  | .bool b => b
  | .int n => decide (n ≠ 0)
  | .str s => decide (s ≠ "")
  | .arr xs => !xs.isEmpty
  | .obj kvs => !kvs.isEmpty

/-- Dict lookup with Python semantics: the *last* binding of a key wins
(duplicate JSON keys overwrite in `json.loads`). -/
def objGetLast (kvs : List (String × JVal)) (k : String) : Option JVal :=
  kvs.reverse.lookup k

/-- `_unb64(cursor).get("after") if cursor else None` (line 248):
`.get` exists only on dicts, so a cursor that decodes to a non-object JSON
value raises `AttributeError`; an absent `"after"` key yields `None`. -/
def cursorAfter (cursor : Option String) : Except PyErr JVal :=
  match cursor with
  | none => .ok .null
  | some s =>
    if s = "" then .ok .null
    else
      match unb64 (some s) with
      | .obj kvs => .ok ((objGetLast kvs "after").getD .null)
      | _ => .error .attributeError

/-- The decode side of the cursor protocol recovers exactly the keyset value
list the encode side embedded. -/
theorem cursorAfter_round (v : List JVal) :
    cursorAfter (some (b64OfJson (.obj [("after", .arr v)]))) = .ok (.arr v) := by
  unfold cursorAfter
  simp only []
  rw [if_neg (b64OfJson_ne_empty _), unb64_b64OfJson]
  simp [objGetLast, List.lookup]

/-! ### Python values (`PyVal`)

The value universe the serving model manipulates: warehouse cell values,
request-field values, and everything the two JSON-safe converters
(`_json_default`, lines 43-60, and `_jsonable`, lines 63-82) can see.
Floats are carried by their exact rational value; binary64 rounding is
outside the model (both converters apply the identical `float()` coercion,
so every agreement statement is unaffected). -/

/-- A Python `datetime` (or `pandas.Timestamp`): microsecond precision,
`tz` the UTC offset in minutes when timezone-aware. -/
structure PyDateTime where
  year : Nat
  month : Nat
  day : Nat
  hour : Nat
  minute : Nat
  second : Nat
  micro : Nat
  tz : Option Int

inductive PyVal where
  | none
  | bool (b : Bool)
  | int (n : Int)
  | float (q : Rat)
  | str (s : String)
  | decimal (q : Rat)
  | datetime (d : PyDateTime)
  | date (y m d : Nat)
  | bytes (bs : List Nat)
  | bytearray (bs : List Nat)
  | list (xs : List PyVal)
  | tuple (xs : List PyVal)
  | dict (kvs : List (String × PyVal))
  | other (s : String)

/-- `float(Decimal)`: modelled as the exact rational value (binary64
rounding is outside the model; both converters call the same coercion). -/
def floatOfRat (q : Rat) : Rat := q

/-! `datetime.isoformat()` -/

def pad2 (n : Nat) : List Char := if n < 10 then '0' :: natToChars n else natToChars n

def pad4 (n : Nat) : List Char :=
  if n < 10 then '0' :: '0' :: '0' :: natToChars n
  else if n < 100 then '0' :: '0' :: natToChars n
  else if n < 1000 then '0' :: natToChars n
  else natToChars n

def pad6 (n : Nat) : List Char :=
  if n < 10 then '0' :: '0' :: '0' :: '0' :: '0' :: natToChars n
  else if n < 100 then '0' :: '0' :: '0' :: '0' :: natToChars n
  else if n < 1000 then '0' :: '0' :: '0' :: natToChars n
  else if n < 10000 then '0' :: '0' :: natToChars n
  else if n < 100000 then '0' :: natToChars n
  else natToChars n

def isoDate (y m d : Nat) : List Char :=
  pad4 y ++ '-' :: (pad2 m ++ '-' :: pad2 d)

/-- The `±HH:MM` suffix of an aware datetime (offset in minutes). -/
def isoTZ : Option Int → List Char
  | Option.none => []
  | Option.some off =>
    (if off < 0 then '-' else '+') :: (pad2 (off.natAbs / 60) ++ ':' :: pad2 (off.natAbs % 60))

def isoDT (dt : PyDateTime) : List Char :=
  isoDate dt.year dt.month dt.day ++ 'T' ::
    (pad2 dt.hour ++ ':' :: (pad2 dt.minute ++ ':' :: pad2 dt.second)) ++
    (if dt.micro = 0 then [] else '.' :: pad6 dt.micro) ++ isoTZ dt.tz

/-- Read one UTF-8 sequence given its lead byte and the following bytes;
returns the decoded character and how many continuation bytes it consumed,
or `none` when the lead or a continuation byte is invalid. -/
def utf8Read1 (b : Nat) (rest : List Nat) : Option (Char × Nat) :=
  if b < 128 then some (Char.ofNat b, 0)
  else if 194 ≤ b ∧ b ≤ 223 then
    match rest with
    | b2 :: _ =>
      if 128 ≤ b2 ∧ b2 ≤ 191 then
        some (Char.ofNat ((b - 192) * 64 + (b2 - 128)), 1)
      else none
    | _ => none
  else if 224 ≤ b ∧ b ≤ 239 then
    match rest with
    | b2 :: b3 :: _ =>
      if (128 ≤ b2 ∧ b2 ≤ 191) ∧ (128 ≤ b3 ∧ b3 ≤ 191) then
        some (Char.ofNat ((b - 224) * 4096 + (b2 - 128) * 64 + (b3 - 128)), 2)
      else none
    | _ => none
  else if 240 ≤ b ∧ b ≤ 244 then
    match rest with
    | b2 :: b3 :: b4 :: _ =>
      if (128 ≤ b2 ∧ b2 ≤ 191) ∧ (128 ≤ b3 ∧ b3 ≤ 191) ∧ (128 ≤ b4 ∧ b4 ≤ 191) then
        some (Char.ofNat ((b - 240) * 262144 + (b2 - 128) * 4096 + (b3 - 128) * 64 + (b4 - 128)),
          3)
      else none
    | _ => none
  else none

/-- `bytes.decode("utf-8", errors="ignore")`: decode UTF-8, silently
dropping invalid bytes. -/
def utf8DecodeIgnore : List Nat → List Char
  | [] => []
  | b :: rest =>
    match utf8Read1 b rest with
    | some (c, k) => c :: utf8DecodeIgnore (rest.drop k)
    | none => utf8DecodeIgnore rest
termination_by l => l.length
decreasing_by
  · simp only [List.length_cons, List.length_drop]
    omega
  · simp only [List.length_cons]
    omega

mutual

/-- Python `str()` of a value (`repr` for container elements).  Exact for
scalars; the textual form of floats and nested containers is an abstraction
(it is never inspected by a theorem, only compared by constructor). -/
def pyStrOf : PyVal → String
  | .none => "None"
  | .bool true => "True"
  | .bool false => "False"
  | .int n => String.mk (intToChars n)
  | .float q => String.mk (intToChars q.num) ++ "/" ++ String.mk (natToChars q.den)
  | .str s => s
  | .decimal q => String.mk (intToChars q.num) ++ "/" ++ String.mk (natToChars q.den)
  | .datetime d => String.mk (isoDT d)
  | .date y m dd => String.mk (isoDate y m dd)
  | .bytes bs => String.mk (utf8DecodeIgnore bs)
  | .bytearray bs => String.mk (utf8DecodeIgnore bs)
  | .list xs => "[" ++ pyJoinRepr xs ++ "]"
  | .tuple xs => "(" ++ pyJoinRepr xs ++ ")"
  | .dict kvs => "\x7b" ++ pyJoinReprKV kvs ++ "\x7d"
  | .other s => s

def pyReprOf : PyVal → String
  | .str s => "'" ++ s ++ "'"
  | v => pyStrOf v

def pyJoinRepr : List PyVal → String
  | [] => ""
  | [x] => pyReprOf x
  | x :: t => pyReprOf x ++ ", " ++ pyJoinRepr t

def pyJoinReprKV : List (String × PyVal) → String
  | [] => ""
  | [(k, v)] => "'" ++ k ++ "': " ++ pyReprOf v
  | (k, v) :: t => "'" ++ k ++ "': " ++ pyReprOf v ++ ", " ++ pyJoinReprKV t

end

/-- `_json_default` (lines 43-60): datetime-likes to ISO-8601 text (offset
kept verbatim), dates to ISO text, `Decimal` to `float`, bytes-likes to
UTF-8-decoded text, and *everything else* — including values JSON handles
natively — to `str(o)`. -/
def pyJsonDefault (o : PyVal) : PyVal :=
  match o with
  | .datetime d => .str (String.mk (isoDT d))
  | .date y m dd => .str (String.mk (isoDate y m dd))
  | .decimal q => .float (floatOfRat q)
  | .bytes bs => .str (String.mk (utf8DecodeIgnore bs))
  | .bytearray bs => .str (String.mk (utf8DecodeIgnore bs))
  | o => .str (pyStrOf o)

/-- `s.replace("+00:00", "Z")`: left-to-right single pass. -/
def replacePlusZeroZ : List Char → List Char
  | '+' :: '0' :: '0' :: ':' :: '0' :: '0' :: rest => 'Z' :: replacePlusZeroZ rest
  | c :: rest => c :: replacePlusZeroZ rest
  | [] => []

mutual

/-- `_jsonable` (lines 63-82), the effective (second) item converter:
datetime-likes to ISO text with `+00:00` normalized to `Z`, dates to ISO
text, `Decimal` to `float`, `bytes` (only) to UTF-8-decoded text, containers
converted recursively (tuples become lists), and any other value returned
unchanged. -/
def pyJsonable : PyVal → PyVal
  | .datetime d => .str (String.mk (replacePlusZeroZ (isoDT d)))
  | .date y m dd => .str (String.mk (isoDate y m dd))
  | .decimal q => .float (floatOfRat q)
  | .bytes bs => .str (String.mk (utf8DecodeIgnore bs))
  | .list xs => .list (pyJsonableList xs)
  | .tuple xs => .list (pyJsonableList xs)
  | .dict kvs => .dict (pyJsonableKV kvs)
  | v => v

def pyJsonableList : List PyVal → List PyVal
  | [] => []
  | x :: t => pyJsonable x :: pyJsonableList t

def pyJsonableKV : List (String × PyVal) → List (String × PyVal)
  | [] => []
  | (k, v) :: t => (k, pyJsonable v) :: pyJsonableKV t

end

/-! ### Module constants (lines 13-40) -/

/-- `DATA_CATALOG` default. -/
def CATALOG : String := "demo"

/-- `DATA_SCHEMA` default. -/
def SCHEMA : String := "data_api_serving"

/-- `DATA_TABLE` default. -/
def TABLE : String := "customer_details"

/-- `MAX_PAGE_SIZE` default. -/
def MAX_LIMIT : Int := 200

/-- Public projection allowlist (lines 19-26): public name to qualified
column expression (here the identity). -/
def ALLOWED_COLS : List (String × String) :=
  [("customer_id", "customer_id"), ("name", "name"), ("email", "email"),
   ("ip_addr", "ip_addr"), ("phone", "phone"), ("modified_ts", "modified_ts")]

def DEFAULT_SELECT : List String := ["customer_id", "name", "email"]

/-- Types for safe casting in predicates (lines 30-37). -/
def COL_TYPES : List (String × String) :=
  [("customer_id", "BIGINT"), ("name", "STRING"), ("email", "STRING"),
   ("ip_addr", "STRING"), ("phone", "STRING"), ("modified_ts", "TIMESTAMP")]

/-- Stable keyset for pagination (line 40): newest first. -/
def KEYSET : List (String × String) := [("modified_ts", "DESC"), ("customer_id", "DESC")]

/-! ### `_parse_select` (lines 121-126) -/

def parseSelect (select_csv : Option String) : List String :=
  match select_csv with
  | Option.none => DEFAULT_SELECT
  | Option.some s =>
    if s = "" then DEFAULT_SELECT
    else
      let cols := ((s.splitOn ",").map String.trim).filter (fun c => c ≠ "")
      let safe := cols.filterMap (fun c => ALLOWED_COLS.lookup c)
      if safe = [] then DEFAULT_SELECT else safe

/-! ### `_parse_filters` (lines 129-166) -/

/-- The normalized filter set: recognized keys with coerced values. -/
structure Filters where
  email : Option String := Option.none
  name : Option String := Option.none
  name_contains : Option String := Option.none
  customer_id : Option Int := Option.none
  ip_addr : Option String := Option.none
  phone : Option String := Option.none
  modified_from : Option String := Option.none
  modified_to : Option String := Option.none
  deriving Repr, DecidableEq

mutual

/-- The Python object a parsed JSON value denotes (`json.loads` output). -/
def jvalToPy : JVal → PyVal
  | .null => .none
  | .bool b => .bool b
  | .int n => .int n
  | .str s => .str s
  | .arr xs => .list (jvalToPyList xs)
  | .obj kvs => .dict (jvalToPyKV kvs)

def jvalToPyList : List JVal → List PyVal
  | [] => []
  | x :: t => jvalToPy x :: jvalToPyList t

def jvalToPyKV : List (String × JVal) → List (String × PyVal)
  | [] => []
  | (k, v) :: t => (k, jvalToPy v) :: jvalToPyKV t

end

/-- `str()` of a JSON-decoded value. -/
def pyStrOfJ (v : JVal) : String := pyStrOf (jvalToPy v)

/-- Substring test on character lists (Python `sub in s`). -/
def isSubChars (pat : List Char) : List Char → Bool
  | [] => pat.isEmpty
  | c :: t => List.isPrefixOf pat (c :: t) || isSubChars pat t

/-- Python `k in f_in`: key membership for dicts, element equality for
lists, substring test for strings, `TypeError` for non-iterables. -/
def pyIn (f_in : JVal) (k : String) : Except PyErr Bool :=
  match f_in with
  | .obj kvs => .ok (kvs.any (fun kv => kv.1 = k))
  | .arr xs => .ok (xs.any (fun x => match x with | .str s => s = k | _ => false))
  | .str s => .ok (isSubChars k.data s.data)
  | _ => .error .typeError

/-- Python `f_in[k]` with a string key: dict lookup (`KeyError` when
missing), `TypeError` on strings and lists (string indices must be
integers). -/
def pyGetItem (f_in : JVal) (k : String) : Except PyErr JVal :=
  match f_in with
  | .obj kvs =>
    match objGetLast kvs k with
    | Option.some v => .ok v
    | Option.none => .error .keyError
  | _ => .error .typeError

/-- Leading/trailing-whitespace strip on character lists (`str.strip()`,
as `int()` applies before parsing). -/
def trimChars (l : List Char) : List Char :=
  ((l.dropWhile Char.isWhitespace).reverse.dropWhile Char.isWhitespace).reverse

/-- Python `int(str)`: optional surrounding whitespace, optional sign,
then at least one digit (underscore separators are not modelled); anything
else raises `ValueError`. -/
def pyIntOfStr (s : String) : Except PyErr Int :=
  match trimChars s.data with
  | '+' :: ds =>
    if ds ≠ [] ∧ ds.all isDigitCh then .ok (valOfDigits ds) else .error .valueError
  | '-' :: ds =>
    if ds ≠ [] ∧ ds.all isDigitCh then .ok (-(valOfDigits ds : Int)) else .error .valueError
  | ds =>
    if ds ≠ [] ∧ ds.all isDigitCh then .ok (valOfDigits ds) else .error .valueError

/-- Python `int()` on a JSON-decoded value: ints pass through, booleans
coerce, strings parse, everything else raises. -/
def pyIntOfJ (v : JVal) : Except PyErr Int :=
  match v with
  | .int n => .ok n
  | .bool b => .ok (if b then 1 else 0)
  | .str s => pyIntOfStr s
  | _ => .error .typeError

/-- `v not in (None, "")`. -/
def notNoneOrEmpty (v : JVal) : Bool :=
  match v with
  | .null => false
  | .str s => s ≠ ""
  | _ => true

/-- One string-valued filter key (the loop at lines 151-153):
`if k in f_in and f_in[k] not in (None, ""): f[k] = str(f_in[k])`. -/
def filterStrKey (f_in : JVal) (k : String) : Except PyErr (Option String) := do
  let mem ← pyIn f_in k
  if mem then do
    let v ← pyGetItem f_in k
    if notNoneOrEmpty v then pure (Option.some (pyStrOfJ v)) else pure Option.none
  else
    pure Option.none

/-- One truthiness-guarded string key (lines 158-164):
`if k in f_in and f_in[k]: ... str(f_in[k])`. -/
def filterTruthyKey (f_in : JVal) (k : String) : Except PyErr (Option String) := do
  let mem ← pyIn f_in k
  if mem then do
    let v ← pyGetItem f_in k
    if jTruthy v then pure (Option.some (pyStrOfJ v)) else pure Option.none
  else
    pure Option.none

/-- `_parse_filters` (lines 129-166).  JSON parse failures fall back to the
empty filter set, but the individual coercions after a successful parse can
raise (`int("abc")` is a `ValueError`, `"email" in 5` a `TypeError`). -/
def parseFilters (filters_json : Option String) : Except PyErr Filters :=
  match filters_json with
  | Option.none => .ok {}
  | Option.some fj =>
    if fj = "" then .ok {}
    else
      match loads fj with
      | Option.none => .ok {}
      | Option.some f_in => do
        let email ← filterStrKey f_in "email"
        let name ← filterStrKey f_in "name"
        let ip_addr ← filterStrKey f_in "ip_addr"
        let phone ← filterStrKey f_in "phone"
        let customer_id ← do
          let mem ← pyIn f_in "customer_id"
          if mem then do
            let v ← pyGetItem f_in "customer_id"
            if notNoneOrEmpty v then do
              let n ← pyIntOfJ v
              pure (Option.some n)
            else pure Option.none
          else pure Option.none
        let name_contains ← do
          let mem ← pyIn f_in "name_contains"
          if mem then do
            let v ← pyGetItem f_in "name_contains"
            if jTruthy v then pure (Option.some (pyStrOfJ v).toLower) else pure Option.none
          else pure Option.none
        let modified_from ← filterTruthyKey f_in "modified_from"
        let modified_to ← filterTruthyKey f_in "modified_to"
        pure { email := email, name := name, name_contains := name_contains,
               customer_id := customer_id, ip_addr := ip_addr, phone := phone,
               modified_from := modified_from, modified_to := modified_to }

/-! ### Limit normalization (`int(limit or 50)`, clamped; lines 267-268 and
329) -/

/-- Python truthiness of a value. -/
def pyTruthy : PyVal → Bool
  | .none => false
  | .bool b => b
  | .int n => decide (n ≠ 0)
  | .float q => decide (q ≠ 0)
  | .str s => decide (s ≠ "")
  | .decimal q => decide (q ≠ 0)
  | .bytes bs => !bs.isEmpty
  | .bytearray bs => !bs.isEmpty
  | .list xs => !xs.isEmpty
  | .tuple xs => !xs.isEmpty
  | .dict kvs => !kvs.isEmpty
  | .datetime _ => true
  | .date _ _ _ => true
  | .other _ => true

/-- Python `int()` on a request value: truncation toward zero for
floats/decimals. -/
def pyIntOf (v : PyVal) : Except PyErr Int :=
  match v with
  | .int n => .ok n
  | .bool b => .ok (if b then 1 else 0)
  | .float q => .ok (if q < 0 then q.ceil else q.floor)
  | .decimal q => .ok (if q < 0 then q.ceil else q.floor)
  | .str s => pyIntOfStr s
  | _ => .error .typeError

/-- `max(1, min(int(limit or 50), MAX_LIMIT))` — the effective page size,
computed identically at lines 268 and 329. -/
def effPageSize (limit : PyVal) : Except PyErr Nat := do
  let n ← pyIntOf (if pyTruthy limit then limit else .int 50)
  pure (max 1 (min n MAX_LIMIT)).toNat

theorem effPageSize_bounds {limit : PyVal} {ps : Nat} (h : effPageSize limit = .ok ps) :
    1 ≤ ps ∧ ps ≤ 200 := by
  unfold effPageSize at h
  cases hint : pyIntOf (if pyTruthy limit then limit else .int 50) with
  | error e => rw [hint] at h; exact absurd h (by simp [Bind.bind, Except.bind])
  | ok n =>
    rw [hint] at h
    simp only [Bind.bind, Except.bind, pure, Except.pure, Except.ok.injEq] at h
    subst h
    have h1 : (1 : Int) ≤ max 1 (min n MAX_LIMIT) := le_max_left _ _
    have h2 : max 1 (min n MAX_LIMIT) ≤ 200 := by
      apply max_le
      · decide
      · calc min n MAX_LIMIT ≤ MAX_LIMIT := min_le_right _ _
          _ = 200 := rfl
    omega

/-! ### `_sql_cast_param` (lines 174-182) -/

/-- `str.upper()` (ASCII; character-level so it evaluates in proofs). -/
def strUpper (s : String) : String := String.mk (s.data.map Char.toUpper)

def sqlCastParam (col pname : String) : String :=
  let t := strUpper ((COL_TYPES.lookup col).getD "STRING")
  if t = "BIGINT" ∨ t = "INT" then "CAST(:" ++ pname ++ " AS BIGINT)"
  else if t = "DOUBLE" ∨ t = "FLOAT" ∨ t = "DECIMAL" then "CAST(:" ++ pname ++ " AS DOUBLE)"
  else if t = "TIMESTAMP" then "CAST(:" ++ pname ++ " AS TIMESTAMP)"
  else ":" ++ pname

/-! ### `_build_keyset_where` (lines 185-207) -/

/-- Bound-parameter mapping: name to value, in dict insertion order. -/
abbrev Params := List (String × JVal)

/-- Python dict assignment: overwrite in place, or append a new key. -/
def dictSet : Params → String → JVal → Params
  | [], k, v => [(k, v)]
  | (k0, v0) :: t, k, v =>
    if k0 = k then (k0, v) :: t else (k0, v0) :: dictSet t k v

/-- `dict.update(other)`. -/
def dictUpdate (d : Params) (d2 : Params) : Params :=
  d2.foldl (fun acc kv => dictSet acc kv.1 kv.2) d

/-- `sep.join(parts)`. -/
def joinSep (sep : String) : List String → String
  | [] => ""
  | [x] => x
  | x :: t => x ++ sep ++ joinSep sep t

/-- Decimal digits with a structural fuel argument (`natStr` feeds it
enough fuel for any input, so it agrees with `natToChars`). -/
def natCharsF : Nat → Nat → List Char
  | 0, _ => []
  | fuel + 1, n =>
    if n < 10 then [digitChar n] else natCharsF fuel (n / 10) ++ [digitChar (n % 10)]

def natStr (n : Nat) : String := String.mk (natCharsF (n + 1) n)

/-- `ALLOWED_COLS[c]`: `KeyError` when the column is not in the catalog. -/
def allowedRef (c : String) : Except PyErr String :=
  match ALLOWED_COLS.lookup c with
  | Option.some v => .ok v
  | Option.none => .error .keyError

/-- Python `len()`. -/
def pyLen (v : JVal) : Except PyErr Nat :=
  match v with
  | .str s => .ok s.length
  | .arr xs => .ok xs.length
  | .obj kvs => .ok kvs.length
  | _ => .error .typeError

/-- Python `v[i]` with an integer index: list/str index, `KeyError` on a
(string-keyed) dict, `TypeError` otherwise. -/
def pyIndex (v : JVal) (i : Nat) : Except PyErr JVal :=
  match v with
  | .arr xs =>
    match xs.get? i with
    | Option.some x => .ok x
    | Option.none => .error .indexError
  | .str s =>
    match s.data.get? i with
    | Option.some c => .ok (.str (String.mk [c]))
    | Option.none => .error .indexError
  | .obj _ => .error .keyError
  | _ => .error .typeError

/-- The inner loop of `_build_keyset_where` (lines 198-201): equality parts
for columns `0..i-1`, threading the params dict. -/
def bkwInner (keys : List (String × String)) (av : JVal) :
    Nat → Params → Except PyErr (List String × Params)
  | 0, p => .ok ([], p)
  | j + 1, p => do
    let (parts, p1) ← bkwInner keys av j p
    let (colj, _dirj) := keys.getD j ("", "")
    let an ← allowedRef colj
    let vj ← pyIndex av j
    .ok (parts ++ [an ++ " = " ++ sqlCastParam colj ("k" ++ natStr j)],
      dictSet p1 ("k" ++ natStr j) vj)

/-- The outer loop of `_build_keyset_where` (lines 196-206): one
lexicographic clause per keyset column. -/
def bkwLoop (keys : List (String × String)) (av : JVal) :
    Nat → Except PyErr (List String × Params)
  | 0 => .ok ([], [])
  | i + 1 => do
    let (clauses, p) ← bkwLoop keys av i
    let (parts, p1) ← bkwInner keys av i p
    let (coli, diri) := keys.getD i ("", "")
    let op := if strUpper diri = "DESC" then "<" else ">"
    let an ← allowedRef coli
    let vi ← pyIndex av i
    let part := an ++ " " ++ op ++ " " ++ sqlCastParam coli ("k" ++ natStr i)
    .ok (clauses ++ ["(" ++ joinSep " AND " (parts ++ [part]) ++ ")"],
      dictSet p1 ("k" ++ natStr i) vi)

/-- `_build_keyset_where` (lines 185-207): the `assert` raises
`AssertionError` when the decoded value list does not match the keyset
arity (`len()` itself raises `TypeError` on non-sized values). -/
def buildKeysetWhere (keys : List (String × String)) (afterVals : JVal) :
    Except PyErr (String × Params) := do
  let n ← pyLen afterVals
  if keys.length = n then do
    let (clauses, params) ← bkwLoop keys afterVals keys.length
    pure (joinSep " OR " clauses, params)
  else
    .error .assertionError

/-! ### `_build_sql` (lines 210-278) -/

/-- The filter predicate clauses, in source order (lines 219-245).  The
source appends to a `where` list one conditional block at a time; each block
contributes its fixed clause text exactly when its key is present. -/
def filterWhere (f : Filters) : List String :=
  (if f.email.isSome then ["lower(email) = :email_lc"] else []) ++
  (if f.name.isSome then ["name = :name"] else []) ++
  (if f.name_contains.isSome then ["lower(name) LIKE :name_like"] else []) ++
  (if f.customer_id.isSome then
    ["customer_id = " ++ sqlCastParam "customer_id" "customer_id"] else []) ++
  (if f.ip_addr.isSome then ["ip_addr = :ip_addr"] else []) ++
  (if f.phone.isSome then ["phone = :phone"] else []) ++
  (if f.modified_from.isSome then
    ["modified_ts >= " ++ sqlCastParam "modified_ts" "modified_from"] else []) ++
  (if f.modified_to.isSome then
    ["modified_ts < " ++ sqlCastParam "modified_ts" "modified_to"] else [])

/-- The filter bindings, in source order (lines 219-245).  The source
assigns distinct parameter names into a fresh dict, which is insertion-order
append. -/
def filterParams (f : Filters) : Params :=
  (match f.email with
   | Option.some v => [("email_lc", JVal.str v.toLower)] | Option.none => []) ++
  (match f.name with
   | Option.some v => [("name", JVal.str v)] | Option.none => []) ++
  (match f.name_contains with
   | Option.some v => [("name_like", JVal.str ("%" ++ v ++ "%"))] | Option.none => []) ++
  (match f.customer_id with
   | Option.some v => [("customer_id", JVal.int v)] | Option.none => []) ++
  (match f.ip_addr with
   | Option.some v => [("ip_addr", JVal.str v)] | Option.none => []) ++
  (match f.phone with
   | Option.some v => [("phone", JVal.str v)] | Option.none => []) ++
  (match f.modified_from with
   | Option.some v => [("modified_from", JVal.str v)] | Option.none => []) ++
  (match f.modified_to with
   | Option.some v => [("modified_to", JVal.str v)] | Option.none => [])

/-- `_compose_order` (lines 169-171): a copy of the keyset. -/
def composeOrder : List (String × String) := KEYSET

/-- The internal projection (lines 260-265): the caller's projection plus
any keyset columns not already present. -/
def internalSelect (select_cols : List String) : List String :=
  (KEYSET.map Prod.fst).foldl
    (fun acc c => if acc.contains c then acc else acc ++ [c]) select_cols

/-- `_build_sql` (lines 210-278): produce the statement text, the bound
parameters, the internal projection and the public projection. -/
def buildSql (select_cols : List String) (filters : Filters) (limit : PyVal)
    (cursor : Option String) :
    Except PyErr (String × Params × List String × List String) := do
  -- Filters (lines 219-245)
  let w0 := filterWhere filters
  let p0 := filterParams filters
  -- Cursor (lines 247-252)
  let after ← cursorAfter cursor
  let (w1, p1) ←
    if jTruthy after then do
      let (pred, predParams) ← buildKeysetWhere KEYSET after
      pure (w0 ++ ["(" ++ pred ++ ")"], dictUpdate p0 predParams)
    else
      pure (w0, p0)
  let where_sql := if w1.isEmpty then "" else " WHERE " ++ joinSep " AND " w1
  -- ORDER BY (lines 256-258)
  let orderParts ← composeOrder.mapM (fun cd => do
    let an ← allowedRef cd.1
    pure (an ++ " " ++ cd.2))
  let order_sql := joinSep ", " orderParts
  -- Projection (lines 260-265)
  let internal_select := internalSelect select_cols
  -- Limit + 1 for has_more detection (lines 267-269)
  let page_size ← effPageSize limit
  let p2 := dictSet p1 "lim" (.int (page_size + 1))
  let stmt := "\n      SELECT " ++ joinSep ", " internal_select ++
    "\n      FROM " ++ CATALOG ++ "." ++ SCHEMA ++ "." ++ TABLE ++
    "\n      " ++ where_sql ++
    "\n      ORDER BY " ++ order_sql ++
    "\n      LIMIT :lim\n    "
  pure (stmt, p2, internal_select, select_cols)

/-! ### `json.dumps(..., default=_json_default)` on Python values -/

mutual

/-- The JSON value `json.dumps(..., default=_json_default)` serializes for a
Python value: native JSON types pass through (tuples as arrays), any other
type is first converted by `_json_default`.  `none` only for floats, which
are outside the model. -/
def pyToJson : PyVal → Option JVal
  | .none => Option.some .null
  | .bool b => Option.some (.bool b)
  | .int n => Option.some (.int n)
  | .float _ => Option.none
  | .str s => Option.some (.str s)
  | .list xs => (pyToJsonList xs).map .arr
  | .tuple xs => (pyToJsonList xs).map .arr
  | .dict kvs => (pyToJsonKV kvs).map .obj
  | o =>
    match pyJsonDefault o with
    | .str s => Option.some (.str s)
    | _ => Option.none

def pyToJsonList : List PyVal → Option (List JVal)
  | [] => Option.some []
  | x :: t =>
    match pyToJson x, pyToJsonList t with
    | Option.some j, Option.some js => Option.some (j :: js)
    | _, _ => Option.none

def pyToJsonKV : List (String × PyVal) → Option (List (String × JVal))
  | [] => Option.some []
  | (k, v) :: t =>
    match pyToJson v, pyToJsonKV t with
    | Option.some j, Option.some js => Option.some ((k, j) :: js)
    | _, _ => Option.none

end

/-- `_b64` (lines 100-103) on a Python dict: compact JSON dump with
`default=_json_default`, then base64url.  `none` only for floats (outside
the model). -/
def pyB64 (p : PyVal) : Option String := (pyToJson p).map b64OfJson

/-! ### Page assembly (`CustomersAPI.predict`, lines 329-357) -/

/-- One result row as the dict `predict` builds from the cursor metadata. -/
abbrev Item := List (String × PyVal)

def itemGet (it : Item) (k : String) : Option PyVal := it.lookup k

/-- `it.pop(k, None)`: remove key `k`. -/
def itemPop (it : Item) (k : String) : Item := it.filter (fun kv => kv.1 ≠ k)

structure Page where
  count : Nat
  items : List Item
  next_cursor : Option String
  has_more : Bool

/-- The keyset values of a row, in Keyset Spec order, JSON-safe
(line 336: `[_jsonable(last[k]) for (k, _) in KEYSET]`). -/
def keysetVals (it : Item) : List PyVal :=
  KEYSET.map (fun cd => pyJsonable ((itemGet it cd.1).getD .none))

/-- Page assembly (lines 329-357): lookahead-based has-more detection,
cursor derivation from the row at index `page_size - 1`, truncation,
stripping of internal-only keyset columns, and JSON-safe conversion.
(`(pyB64 ...).getD ""` can only take its default on float keyset values,
which are outside the model.) -/
def assemblePage (items : List Item) (page_size : Nat) (public_select : List String) :
    Page :=
  let has_more := decide (items.length > page_size)
  let next_cursor :=
    if items.length > page_size then
      Option.some ((pyB64 (.dict [("after", .list (keysetVals (items.getD (page_size - 1) [])))])).getD "")
    else Option.none
  let items1 := if items.length > page_size then items.take page_size else items
  let items2 := KEYSET.foldl
    (fun acc cd =>
      if public_select.contains cd.1 then acc else acc.map (fun it => itemPop it cd.1))
    items1
  let items3 := items2.map pyJsonableKV
  { count := items3.length, items := items3, next_cursor := next_cursor,
    has_more := has_more }

/-! ### Denotational semantics of the compiled statement (C2 world)

The external warehouse collaborator (design §6) executes the statement
`_build_sql` emits against the backing table.  `Row` and `execQuery` model
that collaborator denotationally: a table is a list of rows with the
catalog's columns, the emitted WHERE clauses are evaluated as row
predicates, rows are ordered by the emitted ORDER BY (the fixed keyset) and
cut at the bound `:lim`.  The TIMESTAMP domain is modelled by integers
(order-isomorphic; the CAST of a bound integer-valued parameter is the
identity). -/

structure Row where
  customer_id : Int
  name : String
  email : String
  ip_addr : String
  phone : String
  modified_ts : Int
  deriving Repr, DecidableEq, Inhabited

/-- `CAST(s AS TIMESTAMP)` on a bound string parameter: digits-only model
of the warehouse cast, `none` (SQL NULL) on anything else. -/
def castTimestamp (s : String) : Option Int :=
  if s.data ≠ [] ∧ s.data.all isDigitCh then Option.some (valOfDigits s.data)
  else Option.none

/-- Row semantics of the eight filter clauses of `_build_sql`
(lines 220-245); a failed range cast is SQL NULL and filters the row out.
`LIKE :name_like` with pattern `%v%` is a substring test (LIKE wildcard
characters inside `v` are not modelled). -/
def rowMatches (f : Filters) (r : Row) : Bool :=
  (match f.email with
   | Option.some v => r.email.toLower == v.toLower | Option.none => true) &&
  (match f.name with | Option.some v => r.name == v | Option.none => true) &&
  (match f.name_contains with
   | Option.some v => isSubChars v.data r.name.toLower.data | Option.none => true) &&
  (match f.customer_id with
   | Option.some v => r.customer_id == v | Option.none => true) &&
  (match f.ip_addr with | Option.some v => r.ip_addr == v | Option.none => true) &&
  (match f.phone with | Option.some v => r.phone == v | Option.none => true) &&
  (match f.modified_from with
   | Option.some v =>
     match castTimestamp v with
     | Option.some t => decide (t ≤ r.modified_ts)
     | Option.none => false
   | Option.none => true) &&
  (match f.modified_to with
   | Option.some v =>
     match castTimestamp v with
     | Option.some t => decide (r.modified_ts < t)
     | Option.none => false
   | Option.none => true)

/-- Row semantics of the keyset predicate `_build_keyset_where` emits for
the fixed DESC/DESC keyset:
`(modified_ts < :k0) OR (modified_ts = :k0 AND customer_id < :k1)`.
Any non-integer bound value casts to NULL and the predicate is false. -/
def ksPredSem (av : JVal) (r : Row) : Bool :=
  match av with
  | .arr [.int a0, .int a1] =>
    decide (r.modified_ts < a0) ||
      (decide (r.modified_ts = a0) && decide (r.customer_id < a1))
  | _ => false

/-- The emitted `ORDER BY modified_ts DESC, customer_id DESC` as a total
preorder on rows. -/
def ksLE (r1 r2 : Row) : Prop :=
  r2.modified_ts < r1.modified_ts ∨
    (r1.modified_ts = r2.modified_ts ∧ r2.customer_id ≤ r1.customer_id)

/-- Strictly-before in keyset order. -/
def ksLT (r1 r2 : Row) : Prop :=
  r2.modified_ts < r1.modified_ts ∨
    (r1.modified_ts = r2.modified_ts ∧ r2.customer_id < r1.customer_id)

instance : DecidableRel ksLE := fun a b => by unfold ksLE; infer_instance

instance : DecidableRel ksLT := fun a b => by unfold ksLT; infer_instance

instance : IsTotal Row ksLE := ⟨by intro a b; unfold ksLE; omega⟩

instance : IsTrans Row ksLE := ⟨by intro a b c; unfold ksLE; omega⟩

instance : IsAntisymm Row ksLT :=
  ⟨by intro a b h1 h2; exfalso; unfold ksLT at h1 h2; omega⟩

instance : IsTrans Row ksLT := ⟨by intro a b c; unfold ksLT; omega⟩

/-- The backing warehouse executing the compiled statement: WHERE the
conjunction of the filter predicates and (when a cursor is bound) the keyset
predicate, ORDER BY the keyset, LIMIT the bound `:lim`. -/
def execQuery (table : List Row) (f : Filters) (after : Option JVal) (lim : Nat) :
    List Row :=
  ((table.filter (fun r => rowMatches f r &&
      (match after with
       | Option.some av => ksPredSem av r
       | Option.none => true))).insertionSort ksLE).take lim

/-- The `next_cursor` token `predict` derives from a returned row
(lines 334-337), with the keyset values in Keyset Spec order. -/
def rowTok (r : Row) : String :=
  (pyB64 (.dict [("after",
    .list [pyJsonable (.int r.modified_ts), pyJsonable (.int r.customer_id)])])).getD ""

/-- One `predict` call (lines 304-357) with the warehouse modelled by
`execQuery` and items kept as rows (the projection and stripping logic,
which is identity when all columns are selected, is treated separately in
the page-assembly theorems): decode the cursor as `_build_sql` does, run the
query with the `page_size + 1` lookahead, then assemble has-more, cursor and
trimmed items. -/
def predictRows (table : List Row) (f : Filters) (limit : PyVal)
    (cursor : Option String) : Except PyErr (List Row × Option String × Bool) := do
  let after ← cursorAfter cursor
  let afterOpt ←
    if jTruthy after then do
      let _ ← buildKeysetWhere KEYSET after
      pure (Option.some after)
    else
      pure Option.none
  let ps ← effPageSize limit
  let rows := execQuery table f afterOpt (ps + 1)
  if rows.length > ps then
    pure (rows.take ps, Option.some (rowTok (rows.getD (ps - 1) default)), true)
  else
    pure (rows, Option.none, false)

/-- Walking pages from a cursor until `has_more` is false, accumulating the
returned rows.  The fuel only bounds the recursion; the pagination theorems
supply enough of it. -/
def paginateRows : Nat → List Row → Filters → PyVal → Option String →
    Except PyErr (List Row)
  | 0, _, _, _, _ => .error .assertionError
  | fuel + 1, table, f, limit, cursor => do
    let (items, nc, hm) ← predictRows table f limit cursor
    if hm then do
      let rest ← paginateRows fuel table f limit nc
      pure (items ++ rest)
    else
      pure items

/-! ### Pagination correctness machinery -/

/-- The decoded cursor value a returned row gives rise to. -/
def afterOf (x : Row) : JVal := .arr [.int x.modified_ts, .int x.customer_id]

theorem ksPredSem_eq_true_iff (x r : Row) :
    ksPredSem (afterOf x) r = true ↔ ksLT x r := by
  simp only [ksPredSem, afterOf, Bool.or_eq_true, Bool.and_eq_true, decide_eq_true_eq]
  unfold ksLT
  omega

theorem rowTok_decode (r : Row) : cursorAfter (Option.some (rowTok r)) = .ok (afterOf r) := by
  have hb : pyB64 (.dict [("after",
      .list [pyJsonable (.int r.modified_ts), pyJsonable (.int r.customer_id)])]) =
      Option.some (b64OfJson (.obj [("after",
        .arr [.int r.modified_ts, .int r.customer_id])])) := rfl
  unfold rowTok
  rw [hb]
  exact cursorAfter_round [.int r.modified_ts, .int r.customer_id]

theorem buildKeysetWhere_pair (v0 v1 : JVal) :
    ∃ out, buildKeysetWhere KEYSET (.arr [v0, v1]) = .ok out :=
  ⟨_, rfl⟩

/-- Strictify: a keyset-sorted list whose customer ids are pairwise distinct
is strictly descending. -/
theorem pairwise_ksLT_of_sorted {l : List Row} (hs : l.Pairwise ksLE)
    (hne : l.Pairwise (fun a b => a.customer_id ≠ b.customer_id)) :
    l.Pairwise ksLT :=
  (hs.and hne).imp (by
    intro a b hab
    obtain ⟨h1, h2⟩ := hab
    unfold ksLE at h1
    unfold ksLT
    omega)

/-- Filtering commutes with keyset sorting when customer ids are pairwise
distinct (so that the sorted order is unique). -/
theorem insertionSort_filter_comm {p : Row → Bool} {l : List Row}
    (hne : l.Pairwise (fun a b => a.customer_id ≠ b.customer_id)) :
    (l.filter p).insertionSort ksLE = (l.insertionSort ksLE).filter p := by
  have hperm1 : List.Perm ((l.filter p).insertionSort ksLE) (l.filter p) :=
    List.perm_insertionSort ksLE _
  have hperm2 : List.Perm (l.filter p) ((l.insertionSort ksLE).filter p) :=
    ((List.perm_insertionSort ksLE l).symm).filter p
  have hsymm : ∀ {x y : Row},
      x.customer_id ≠ y.customer_id → y.customer_id ≠ x.customer_id :=
    fun h => h.symm
  have hne_sort : (l.insertionSort ksLE).Pairwise
      (fun a b => a.customer_id ≠ b.customer_id) :=
    ((List.perm_insertionSort ksLE l).pairwise_iff hsymm).mpr hne
  have h1 : ((l.filter p).insertionSort ksLE).Pairwise ksLT := by
    apply pairwise_ksLT_of_sorted (List.sorted_insertionSort ksLE _)
    exact (hperm1.pairwise_iff hsymm).mpr ((hne.sublist (List.filter_sublist l)))
  have h2 : ((l.insertionSort ksLE).filter p).Pairwise ksLT := by
    apply pairwise_ksLT_of_sorted
    · exact (List.sorted_insertionSort ksLE l).filter p
    · exact hne_sort.sublist (List.filter_sublist _)
  exact List.eq_of_perm_of_sorted (hperm1.trans hperm2) h1 h2

/-- In a strictly descending list, the rows satisfying the keyset predicate
for the row at index `i` are exactly the rows past index `i`. -/
theorem filter_ksLT_drop :
    ∀ {S : List Row}, S.Pairwise ksLT → ∀ i (h : i < S.length),
      S.filter (fun r => ksPredSem (afterOf (S.get ⟨i, h⟩)) r) = S.drop (i + 1) := by
  intro S
  induction S with
  | nil => intro _ i h; exact absurd h (by simp)
  | cons a t ih =>
    intro hp i h
    rcases List.pairwise_cons.1 hp with ⟨hhead, htail⟩
    cases i with
    | zero =>
      simp only [List.get, List.filter_cons]
      rw [if_neg (by
        rw [ksPredSem_eq_true_iff]
        unfold ksLT
        omega)]
      rw [List.filter_eq_self.mpr (fun r hr => by
        rw [ksPredSem_eq_true_iff]
        exact hhead r hr)]
      rfl
    | succ i0 =>
      simp only [List.get, List.filter_cons, List.drop_succ_cons]
      have hx : t.get ⟨i0, by simpa using h⟩ ∈ t := List.get_mem t i0 (by simpa using h)
      rw [if_neg (by
        rw [ksPredSem_eq_true_iff]
        have := hhead _ hx
        unfold ksLT at *
        omega)]
      exact ih htail i0 (by simpa using h)

/-- The rows matching the filter set, in the emitted keyset order
(`ORDER BY modified_ts DESC, customer_id DESC`): the reference enumeration
against which pagination is proved complete. -/
def sortedMatches (table : List Row) (f : Filters) : List Row :=
  (table.filter (rowMatches f)).insertionSort ksLE

theorem execQuery_none (table : List Row) (f : Filters) (lim : Nat) :
    execQuery table f Option.none lim = (sortedMatches table f).take lim := by
  unfold execQuery sortedMatches
  congr 2
  apply List.filter_congr
  intro r _
  simp

theorem sortedMatches_pairwise_ne (table : List Row) (f : Filters)
    (hne : table.Pairwise (fun a b => a.customer_id ≠ b.customer_id)) :
    (sortedMatches table f).Pairwise (fun a b => a.customer_id ≠ b.customer_id) := by
  have hsymm : ∀ {x y : Row},
      x.customer_id ≠ y.customer_id → y.customer_id ≠ x.customer_id :=
    fun h => h.symm
  exact ((List.perm_insertionSort ksLE _).pairwise_iff hsymm).mpr
    (hne.sublist (List.filter_sublist _))

theorem sortedMatches_pairwise_ksLT (table : List Row) (f : Filters)
    (hne : table.Pairwise (fun a b => a.customer_id ≠ b.customer_id)) :
    (sortedMatches table f).Pairwise ksLT :=
  pairwise_ksLT_of_sorted (List.sorted_insertionSort ksLE _)
    (sortedMatches_pairwise_ne table f hne)

theorem execQuery_after (table : List Row) (f : Filters) (lim : Nat)
    (hne : table.Pairwise (fun a b => a.customer_id ≠ b.customer_id))
    (i : Nat) (h : i < (sortedMatches table f).length) :
    execQuery table f (Option.some (afterOf ((sortedMatches table f).get ⟨i, h⟩))) lim =
      ((sortedMatches table f).drop (i + 1)).take lim := by
  have hMne : (table.filter (rowMatches f)).Pairwise
      (fun a b => a.customer_id ≠ b.customer_id) :=
    hne.sublist (List.filter_sublist _)
  unfold execQuery
  congr 1
  have h1 : table.filter (fun r => rowMatches f r &&
        ksPredSem (afterOf ((sortedMatches table f).get ⟨i, h⟩)) r) =
      (table.filter (rowMatches f)).filter
        (fun r => ksPredSem (afterOf ((sortedMatches table f).get ⟨i, h⟩)) r) := by
    rw [List.filter_filter]
    apply List.filter_congr
    intro r _
    exact Bool.and_comm _ _
  rw [h1, insertionSort_filter_comm hMne]
  exact filter_ksLT_drop (sortedMatches_pairwise_ksLT table f hne) i h

/-- The tail of one `predict` call (has-more, cursor, trim) applied to the
lookahead fetch `rem.take (ps + 1)` equals its direct description on the
remaining rows `rem`. -/
theorem assembleRows_eq (rem : List Row) (ps : Nat) :
    (if (rem.take (ps + 1)).length > ps then
      (.ok ((rem.take (ps + 1)).take ps,
        Option.some (rowTok ((rem.take (ps + 1)).getD (ps - 1) default)), true) :
        Except PyErr (List Row × Option String × Bool))
    else .ok (rem.take (ps + 1), Option.none, false)) =
    (if rem.length > ps then
      .ok (rem.take ps, Option.some (rowTok (rem.getD (ps - 1) default)), true)
    else .ok (rem, Option.none, false)) := by
  by_cases hgt : rem.length > ps
  · rw [if_pos (by rw [List.length_take]; omega), if_pos hgt]
    have ht : (rem.take (ps + 1)).take ps = rem.take ps := by
      rw [List.take_take]
      congr 1
      omega
    have hg : (rem.take (ps + 1)).getD (ps - 1) default = rem.getD (ps - 1) default := by
      rw [List.getD_eq_getElem?_getD, List.getD_eq_getElem?_getD,
        List.getElem?_take_of_lt (by omega)]
    rw [ht, hg]
  · rw [if_neg (by rw [List.length_take]; omega), if_neg hgt,
      List.take_of_length_le (by omega)]

/-- One `predict` call along the pagination walk: if the cursor is absent
(`k = 0`) or the token of row `k - 1`, the call returns the next page of the
reference enumeration, a has-more flag telling whether more rows remain, and
the token of the last returned row. -/
theorem predictRows_state (table : List Row) (f : Filters) (limit : PyVal) (ps : Nat)
    (heff : effPageSize limit = .ok ps)
    (hne : table.Pairwise (fun a b => a.customer_id ≠ b.customer_id))
    (k : Nat) (cursor : Option String)
    (hcur : (cursor = Option.none ∧ k = 0) ∨
      (∃ (hkl : k - 1 < (sortedMatches table f).length), 0 < k ∧
        cursor = Option.some (rowTok ((sortedMatches table f).get ⟨k - 1, hkl⟩)))) :
    predictRows table f limit cursor =
      (if ((sortedMatches table f).drop k).length > ps then
        .ok (((sortedMatches table f).drop k).take ps,
          Option.some (rowTok (((sortedMatches table f).drop k).getD (ps - 1) default)),
          true)
      else .ok ((sortedMatches table f).drop k, Option.none, false)) := by
  rcases hcur with ⟨hc, hk⟩ | ⟨hkl, hk0, hc⟩
  · subst hc; subst hk
    unfold predictRows
    rw [show cursorAfter Option.none = .ok .null from rfl]
    simp only [Bind.bind, Except.bind, jTruthy, Bool.false_eq_true, if_false, heff]
    simp only [pure, Except.pure]
    rw [execQuery_none]
    simp only [List.drop_zero]
    exact assembleRows_eq (sortedMatches table f) ps
  · subst hc
    unfold predictRows
    rw [rowTok_decode]
    obtain ⟨out, hbk⟩ := buildKeysetWhere_pair
      (.int ((sortedMatches table f).get ⟨k - 1, hkl⟩).modified_ts)
      (.int ((sortedMatches table f).get ⟨k - 1, hkl⟩).customer_id)
    simp only [Bind.bind, Except.bind, jTruthy, afterOf, List.isEmpty_cons,
      Bool.not_false, if_true, Except.pure]
    rw [show JVal.arr [.int ((sortedMatches table f).get ⟨k - 1, hkl⟩).modified_ts,
        .int ((sortedMatches table f).get ⟨k - 1, hkl⟩).customer_id] =
      afterOf ((sortedMatches table f).get ⟨k - 1, hkl⟩) from rfl]
    rw [show buildKeysetWhere KEYSET (afterOf ((sortedMatches table f).get ⟨k - 1, hkl⟩)) =
      .ok out from hbk]
    simp only [Except.bind, heff]
    simp only [pure, Except.pure]
    rw [execQuery_after table f (ps + 1) hne (k - 1) hkl]
    rw [show k - 1 + 1 = k by omega]
    exact assembleRows_eq _ ps

/-- Walking pages from position `k` returns exactly the remaining rows of
the reference enumeration. -/
theorem paginateRows_from (table : List Row) (f : Filters) (limit : PyVal) (ps : Nat)
    (heff : effPageSize limit = .ok ps)
    (hne : table.Pairwise (fun a b => a.customer_id ≠ b.customer_id)) :
    ∀ (fuel k : Nat) (cursor : Option String),
      (sortedMatches table f).length - k + 1 ≤ fuel →
      ((cursor = Option.none ∧ k = 0) ∨
        (∃ (hkl : k - 1 < (sortedMatches table f).length), 0 < k ∧
          cursor = Option.some (rowTok ((sortedMatches table f).get ⟨k - 1, hkl⟩)))) →
      paginateRows fuel table f limit cursor = .ok ((sortedMatches table f).drop k) := by
  intro fuel
  induction fuel with
  | zero =>
    intro k cursor hf _
    omega
  | succ fuel ih =>
    intro k cursor hf hcur
    obtain ⟨hps1, hps2⟩ := effPageSize_bounds heff
    show (do
      let (items, nc, hm) ← predictRows table f limit cursor
      if hm then do
        let rest ← paginateRows fuel table f limit nc
        pure (items ++ rest)
      else
        pure items) = .ok ((sortedMatches table f).drop k)
    rw [predictRows_state table f limit ps heff hne k cursor hcur]
    by_cases hgt : ((sortedMatches table f).drop k).length > ps
    · rw [if_pos hgt]
      have hlen : ((sortedMatches table f).drop k).length =
          (sortedMatches table f).length - k := List.length_drop k _
      have hkps : k + ps - 1 < (sortedMatches table f).length := by omega
      have hgd : ((sortedMatches table f).drop k).getD (ps - 1) default =
          (sortedMatches table f).get ⟨k + ps - 1, hkps⟩ := by
        rw [List.getD_eq_getElem?_getD, List.getElem?_drop,
          show k + (ps - 1) = k + ps - 1 by omega,
          List.getElem?_eq_getElem hkps]
        rfl
      rw [hgd]
      show Except.bind
          (paginateRows fuel table f limit
            (Option.some (rowTok ((sortedMatches table f).get ⟨k + ps - 1, hkps⟩))))
          (fun rest => Except.ok (((sortedMatches table f).drop k).take ps ++ rest)) =
        Except.ok ((sortedMatches table f).drop k)
      rw [ih (k + ps)
        (Option.some (rowTok ((sortedMatches table f).get ⟨k + ps - 1, hkps⟩)))
        (by omega) (Or.inr ⟨hkps, by omega, rfl⟩)]
      simp only [Except.bind]
      congr 1
      have hdd : ((sortedMatches table f).drop k).drop ps =
          (sortedMatches table f).drop (k + ps) := by
        rw [List.drop_drop, Nat.add_comm]
      rw [← hdd]
      exact List.take_append_drop ps _
    · rw [if_neg hgt]
      rfl

/-- Walking pages from no cursor until `has_more` is false enumerates
exactly the filter-matching rows, in keyset order. -/
theorem paginateRows_complete (table : List Row) (f : Filters) (limit : PyVal) (ps : Nat)
    (heff : effPageSize limit = .ok ps)
    (hne : table.Pairwise (fun a b => a.customer_id ≠ b.customer_id)) :
    paginateRows (table.length + 1) table f limit Option.none =
      .ok (sortedMatches table f) := by
  have hlen : (sortedMatches table f).length ≤ table.length := by
    unfold sortedMatches
    rw [(List.perm_insertionSort ksLE _).length_eq]
    exact List.length_filter_le _ _
  have h := paginateRows_from table f limit ps heff hne (table.length + 1) 0 Option.none
    (by omega) (Or.inl ⟨rfl, rfl⟩)
  simpa using h

/-! ### Statement-text characterization (`_build_sql`'s f-string, lines 271-277) -/

/-- The keyset predicate text `_build_keyset_where` emits for the fixed
DESC/DESC keyset. -/
def ksPredText : String :=
  "(modified_ts < CAST(:k0 AS TIMESTAMP)) OR (modified_ts = CAST(:k0 AS TIMESTAMP) AND customer_id < CAST(:k1 AS BIGINT))"

/-- The keyset predicate as `_build_sql` wraps it into the WHERE list
(line 251). -/
def wrappedKs : String := "(" ++ ksPredText ++ ")"

/-- The fixed tail of every emitted statement: the full keyset ORDER BY
followed by the bound LIMIT. -/
def orderLimitTail : String :=
  "\n      ORDER BY modified_ts DESC, customer_id DESC\n      LIMIT :lim\n    "

/-- The WHERE clause `_build_sql` joins from its clause list (line 254). -/
def whereSql (w : List String) : String :=
  if w.isEmpty then "" else " WHERE " ++ joinSep " AND " w

/-- The ORDER BY text `_build_sql` joins from `_compose_order` (line 258). -/
def orderSqlText : String := joinSep ", " ["modified_ts DESC", "customer_id DESC"]

/-- The full statement text as a function of the projection and the WHERE
clause list only — mirroring the f-string of lines 271-277. -/
def stmtText (sel w : List String) : String :=
  "\n      SELECT " ++ joinSep ", " (internalSelect sel) ++
  "\n      FROM " ++ CATALOG ++ "." ++ SCHEMA ++ "." ++ TABLE ++
  "\n      " ++ whereSql w ++
  "\n      ORDER BY " ++ orderSqlText ++
  "\n      LIMIT :lim\n    "

set_option maxHeartbeats 1600000 in
/-- `_build_sql` with no cursor: the statement is `stmtText` over the filter
clauses, and the parameters are the filter bindings plus `lim`. -/
theorem buildSql_none (sel : List String) (f : Filters) (limit : PyVal) (ps : Nat)
    (heff : effPageSize limit = .ok ps) :
    buildSql sel f limit Option.none =
      .ok (stmtText sel (filterWhere f),
        dictSet (filterParams f) "lim" (.int (ps + 1)), internalSelect sel, sel) := by
  unfold buildSql
  rw [heff]
  rfl

set_option maxHeartbeats 1600000 in
/-- `_build_keyset_where` on a two-value list: the lexicographic DESC/DESC
predicate text, with the two values bound as `k0` and `k1`. -/
theorem buildKeysetWhere_eq (a b : JVal) :
    buildKeysetWhere KEYSET (.arr [a, b]) =
      .ok (ksPredText, [("k0", a), ("k1", b)]) := rfl

set_option maxHeartbeats 1600000 in
/-- `_build_sql` with a well-formed two-value cursor: the keyset predicate is
appended to the WHERE list and its values are bound as `k0`/`k1`. -/
theorem buildSql_cursor (sel : List String) (f : Filters) (limit : PyVal) (ps : Nat)
    (a b : JVal) (heff : effPageSize limit = .ok ps) :
    buildSql sel f limit (Option.some (b64OfJson (.obj [("after", .arr [a, b])]))) =
      .ok (stmtText sel (filterWhere f ++ [wrappedKs]),
        dictSet (dictUpdate (filterParams f) [("k0", a), ("k1", b)]) "lim"
          (.int (ps + 1)),
        internalSelect sel, sel) := by
  unfold buildSql
  rw [heff, cursorAfter_round [a, b]]
  simp only [Bind.bind, Except.bind]
  rw [if_pos (show jTruthy (JVal.arr [a, b]) = true from rfl)]
  rw [buildKeysetWhere_eq a b]
  rfl

/-- `filterWhere` depends only on which filter keys are present. -/
theorem filterWhere_flags {f1 f2 : Filters}
    (h1 : f1.email.isSome = f2.email.isSome) (h2 : f1.name.isSome = f2.name.isSome)
    (h3 : f1.name_contains.isSome = f2.name_contains.isSome)
    (h4 : f1.customer_id.isSome = f2.customer_id.isSome)
    (h5 : f1.ip_addr.isSome = f2.ip_addr.isSome)
    (h6 : f1.phone.isSome = f2.phone.isSome)
    (h7 : f1.modified_from.isSome = f2.modified_from.isSome)
    (h8 : f1.modified_to.isSome = f2.modified_to.isSome) :
    filterWhere f1 = filterWhere f2 := by
  unfold filterWhere
  rw [h1, h2, h3, h4, h5, h6, h7, h8]

/-- Looking up the key just assigned returns the assigned value. -/
theorem lookup_dictSet (d : Params) (k : String) (v : JVal) :
    (dictSet d k v).lookup k = Option.some v := by
  induction d with
  | nil => simp [dictSet, List.lookup]
  | cons kv t ih =>
    obtain ⟨k0, v0⟩ := kv
    unfold dictSet
    by_cases hk : k0 = k
    · subst hk
      simp [List.lookup]
    · rw [if_neg hk]
      have hb : (k == k0) = false := beq_eq_false_iff_ne.mpr (Ne.symm hk)
      simp [List.lookup, hb, ih]

/-- Assigning one key leaves every other key's binding unchanged. -/
theorem lookup_dictSet_ne (d : Params) {k k' : String} (v : JVal) (h : k' ≠ k) :
    (dictSet d k v).lookup k' = d.lookup k' := by
  induction d with
  | nil =>
    simp [dictSet, List.lookup, beq_eq_false_iff_ne.mpr h]
  | cons kv t ih =>
    obtain ⟨k0, v0⟩ := kv
    unfold dictSet
    by_cases hk : k0 = k
    · subst hk
      simp [List.lookup, beq_eq_false_iff_ne.mpr h]
    · rw [if_neg hk]
      by_cases hk' : k' = k0
      · subst hk'
        simp [List.lookup]
      · simp [List.lookup, beq_eq_false_iff_ne.mpr hk', ih]

theorem str_append_assoc (a b c : String) : a ++ b ++ c = a ++ (b ++ c) :=
  congrArg String.mk (List.append_assoc a.data b.data c.data)

/-- Every emitted statement ends with the fixed ORDER BY / LIMIT tail. -/
theorem stmtText_tail (sel w : List String) :
    stmtText sel w =
      ("\n      SELECT " ++ joinSep ", " (internalSelect sel) ++
        "\n      FROM " ++ CATALOG ++ "." ++ SCHEMA ++ "." ++ TABLE ++
        "\n      " ++ whereSql w) ++ orderLimitTail := by
  unfold stmtText
  rw [str_append_assoc, str_append_assoc]
  rfl

/-! ### The claims -/

/-- C1: caller-controlled values (filter values, cursor keyset values, the
limit) influence only the bound-parameter mapping `_build_sql` returns,
never the statement text: two requests with the same projection, the same
set of present filter keys and the same cursor presence (with matching
two-value arity) compile to the identical statement text whatever the
filter values, cursor values or limits are; the limit is bound as the
`lim` parameter, page size + 1. -/
theorem C1_statement_text_invariance (sel : List String) (f1 f2 : Filters)
    (l1 l2 : PyVal) (ps1 ps2 : Nat)
    (h1 : effPageSize l1 = .ok ps1) (h2 : effPageSize l2 = .ok ps2)
    (hfl : f1.email.isSome = f2.email.isSome ∧ f1.name.isSome = f2.name.isSome ∧
      f1.name_contains.isSome = f2.name_contains.isSome ∧
      f1.customer_id.isSome = f2.customer_id.isSome ∧
      f1.ip_addr.isSome = f2.ip_addr.isSome ∧ f1.phone.isSome = f2.phone.isSome ∧
      f1.modified_from.isSome = f2.modified_from.isSome ∧
      f1.modified_to.isSome = f2.modified_to.isSome)
    (c1 c2 : Option String)
    (hc : (c1 = Option.none ∧ c2 = Option.none) ∨
      (∃ a1 b1 a2 b2 : JVal,
        c1 = Option.some (b64OfJson (.obj [("after", .arr [a1, b1])])) ∧
        c2 = Option.some (b64OfJson (.obj [("after", .arr [a2, b2])])))) :
    ∃ stmt p1 p2,
      buildSql sel f1 l1 c1 = .ok (stmt, p1, internalSelect sel, sel) ∧
      buildSql sel f2 l2 c2 = .ok (stmt, p2, internalSelect sel, sel) ∧
      p1.lookup "lim" = Option.some (.int (ps1 + 1)) ∧
      p2.lookup "lim" = Option.some (.int (ps2 + 1)) := by
  obtain ⟨e1, e2, e3, e4, e5, e6, e7, e8⟩ := hfl
  have hw : filterWhere f1 = filterWhere f2 :=
    filterWhere_flags e1 e2 e3 e4 e5 e6 e7 e8
  rcases hc with ⟨hcn1, hcn2⟩ | ⟨a1, b1, a2, b2, hcs1, hcs2⟩
  · subst hcn1; subst hcn2
    have hb2 : buildSql sel f2 l2 Option.none =
        .ok (stmtText sel (filterWhere f1),
          dictSet (filterParams f2) "lim" (.int (ps2 + 1)), internalSelect sel, sel) := by
      rw [buildSql_none sel f2 l2 ps2 h2, hw]
    exact ⟨_, _, _, buildSql_none sel f1 l1 ps1 h1, hb2,
      lookup_dictSet _ _ _, lookup_dictSet _ _ _⟩
  · subst hcs1; subst hcs2
    have hb2 : buildSql sel f2 l2
        (Option.some (b64OfJson (.obj [("after", .arr [a2, b2])]))) =
        .ok (stmtText sel (filterWhere f1 ++ [wrappedKs]),
          dictSet (dictUpdate (filterParams f2) [("k0", a2), ("k1", b2)]) "lim"
            (.int (ps2 + 1)), internalSelect sel, sel) := by
      rw [buildSql_cursor sel f2 l2 ps2 a2 b2 h2, hw]
    exact ⟨_, _, _, buildSql_cursor sel f1 l1 ps1 a1 b1 h1, hb2,
      lookup_dictSet _ _ _, lookup_dictSet _ _ _⟩

/-- C1 witness: two concrete requests — different e-mail filter values
(one of them SQL-metacharacter-laden) and different limits — compile to one
and the same statement text. -/
theorem C1_statement_text_invariance_witness :
    effPageSize (PyVal.int 2) = .ok 2 ∧ effPageSize (PyVal.int 7) = .ok 7 ∧
    (∃ stmt p1 p2,
      buildSql DEFAULT_SELECT { email := Option.some "a@example.com" }
          (PyVal.int 2) Option.none = .ok (stmt, p1, internalSelect DEFAULT_SELECT, DEFAULT_SELECT) ∧
      buildSql DEFAULT_SELECT { email := Option.some "x'); DROP TABLE t;--" }
          (PyVal.int 7) Option.none = .ok (stmt, p2, internalSelect DEFAULT_SELECT, DEFAULT_SELECT) ∧
      p1.lookup "lim" = Option.some (.int (2 + 1)) ∧
      p2.lookup "lim" = Option.some (.int (7 + 1))) :=
  ⟨rfl, rfl,
    C1_statement_text_invariance DEFAULT_SELECT
      { email := Option.some "a@example.com" }
      { email := Option.some "x'); DROP TABLE t;--" }
      (PyVal.int 2) (PyVal.int 7) 2 7 rfl rfl
      ⟨rfl, rfl, rfl, rfl, rfl, rfl, rfl, rfl⟩
      Option.none Option.none (Or.inl ⟨rfl, rfl⟩)⟩

/-- C2: for a table whose second keyset column (customer_id) is unique per
row, walking pages from no cursor with the returned next_cursor until
has_more is false succeeds and enumerates exactly the rows matching the
filters — a permutation of the filtered table, so nothing duplicated or
skipped — in strictly descending keyset order (modified_ts DESC,
customer_id DESC). -/
theorem C2_pagination_exhaustive (table : List Row) (f : Filters) (limit : PyVal)
    (ps : Nat) (heff : effPageSize limit = .ok ps)
    (hne : table.Pairwise (fun a b => a.customer_id ≠ b.customer_id)) :
    ∃ S, paginateRows (table.length + 1) table f limit Option.none = .ok S ∧
      List.Perm S (table.filter (rowMatches f)) ∧ S.Pairwise ksLT := by
  refine ⟨sortedMatches table f, paginateRows_complete table f limit ps heff hne,
    ?_, sortedMatches_pairwise_ksLT table f hne⟩
  unfold sortedMatches
  exact List.perm_insertionSort ksLE _

/-- The three-row demo table of the design document's pagination scenario. -/
def wTable : List Row :=
  [⟨3, "", "", "", "", 30⟩, ⟨2, "", "", "", "", 20⟩, ⟨1, "", "", "", "", 10⟩]

/-- C2 witness: the three-row table with page size 2. -/
theorem C2_pagination_exhaustive_witness :
    effPageSize (PyVal.int 2) = .ok 2 ∧
    List.Pairwise (fun a b => a.customer_id ≠ b.customer_id) wTable ∧
    (∃ S, paginateRows (wTable.length + 1) wTable {} (PyVal.int 2) Option.none = .ok S ∧
      List.Perm S (wTable.filter (rowMatches {})) ∧ S.Pairwise ksLT) :=
  ⟨rfl, by decide, C2_pagination_exhaustive wTable {} (PyVal.int 2) 2 rfl (by decide)⟩

/-- C3: a two-value cursor produces the lexicographic DESC/DESC keyset
predicate — `<` on the first column, equality on it plus `<` on the second —
with both values bound as `k0`/`k1`; `_build_sql` ANDs it after the filter
clauses rather than replacing them; and the statement always ends with the
fixed full-keyset ORDER BY, whatever the projection and filters. -/
theorem C3_keyset_predicate_shape (v0 v1 : JVal) (sel : List String) (f : Filters)
    (limit : PyVal) (ps : Nat) (heff : effPageSize limit = .ok ps) :
    buildKeysetWhere KEYSET (.arr [v0, v1]) =
      .ok (ksPredText, [("k0", v0), ("k1", v1)]) ∧
    ksPredText =
      "(modified_ts < CAST(:k0 AS TIMESTAMP)) OR (modified_ts = CAST(:k0 AS TIMESTAMP) AND customer_id < CAST(:k1 AS BIGINT))" ∧
    (∃ p, buildSql sel f limit
        (Option.some (b64OfJson (.obj [("after", .arr [v0, v1])]))) =
        .ok (stmtText sel (filterWhere f ++ [wrappedKs]), p, internalSelect sel, sel) ∧
      p.lookup "k0" = Option.some v0 ∧ p.lookup "k1" = Option.some v1) ∧
    (∀ w, ∃ pre, stmtText sel w = pre ++ orderLimitTail) := by
  refine ⟨buildKeysetWhere_eq v0 v1, rfl, ⟨_, buildSql_cursor sel f limit ps v0 v1 heff,
    ?_, ?_⟩, fun w => ⟨_, stmtText_tail sel w⟩⟩
  · rw [lookup_dictSet_ne _ _ (by decide),
      show dictUpdate (filterParams f) [("k0", v0), ("k1", v1)] =
        dictSet (dictSet (filterParams f) "k0" v0) "k1" v1 from rfl,
      lookup_dictSet_ne _ _ (by decide), lookup_dictSet]
  · rw [lookup_dictSet_ne _ _ (by decide),
      show dictUpdate (filterParams f) [("k0", v0), ("k1", v1)] =
        dictSet (dictSet (filterParams f) "k0" v0) "k1" v1 from rfl,
      lookup_dictSet]

/-- C3 witness: concrete cursor values, the default projection and an empty
filter set. -/
theorem C3_keyset_predicate_shape_witness :
    effPageSize (PyVal.int 50) = .ok 50 ∧
    (buildKeysetWhere KEYSET (.arr [.int 9, .int 7]) =
      .ok (ksPredText, [("k0", .int 9), ("k1", .int 7)]) ∧
    ksPredText =
      "(modified_ts < CAST(:k0 AS TIMESTAMP)) OR (modified_ts = CAST(:k0 AS TIMESTAMP) AND customer_id < CAST(:k1 AS BIGINT))" ∧
    (∃ p, buildSql DEFAULT_SELECT {} (PyVal.int 50)
        (Option.some (b64OfJson (.obj [("after", .arr [.int 9, .int 7])]))) =
        .ok (stmtText DEFAULT_SELECT (filterWhere {} ++ [wrappedKs]), p,
          internalSelect DEFAULT_SELECT, DEFAULT_SELECT) ∧
      p.lookup "k0" = Option.some (.int 9) ∧ p.lookup "k1" = Option.some (.int 7)) ∧
    (∀ w, ∃ pre, stmtText DEFAULT_SELECT w = pre ++ orderLimitTail)) :=
  ⟨rfl, C3_keyset_predicate_shape (.int 9) (.int 7) DEFAULT_SELECT {} (PyVal.int 50) 50 rfl⟩

/-- Stripping internal keyset columns never changes the number of rows. -/
theorem stripKeyset_length (psel : List String) (l : List Item) :
    (KEYSET.foldl (fun acc cd =>
      if psel.contains cd.1 then acc else acc.map (fun it => itemPop it cd.1)) l).length =
      l.length := by
  simp only [KEYSET, List.foldl]
  by_cases h1 : "modified_ts" ∈ psel <;> by_cases h2 : "customer_id" ∈ psel <;>
    simp [h1, h2]

/-- The assembled page holds the lookahead-trimmed row count. -/
theorem assemblePage_items_length (items : List Item) (ps : Nat) (psel : List String) :
    (assemblePage items ps psel).items.length =
      if items.length > ps then ps else items.length := by
  unfold assemblePage
  simp only [List.length_map, stripKeyset_length]
  by_cases h : items.length > ps
  · simp only [if_pos h, List.length_take]
    omega
  · simp only [if_neg h]

/-- C4: a syntactically valid cursor whose JSON is not an object makes
`_unb64(cursor).get("after")` raise `AttributeError` (line 248), and a
cursor object whose "after" list has the wrong arity trips the `assert` in
`_build_keyset_where` (line 193) — the request fails instead of serving the
first page.  (`"WzEsMl0="` is base64url for the JSON list `[1,2]`.) -/
theorem C4_malformed_cursor_raises :
    cursorAfter (Option.some "WzEsMl0=") = .error .attributeError ∧
    buildSql DEFAULT_SELECT {} (.int 50)
      (Option.some (b64OfJson (.obj [("after", .arr [.int 1])]))) =
      .error .assertionError := by
  constructor
  · rfl
  · unfold buildSql
    rw [cursorAfter_round [.int 1]]
    simp only [Bind.bind, Except.bind]
    rw [if_pos (show jTruthy (JVal.arr [.int 1]) = true from rfl)]
    rw [show buildKeysetWhere KEYSET (.arr [.int 1]) = .error .assertionError from rfl]

/-- C5: the request normalizer is not total — a filters_json whose
customer_id is a non-numeric string reaches `int(...)` and raises
`ValueError` (line 156), and a non-object JSON document makes the `in`
membership test raise `TypeError` (line 152) — instead of yielding an empty
filter set. -/
theorem C5_normalizer_raises :
    parseFilters (Option.some "\x7b\"customer_id\":\"abc\"\x7d") = .error .valueError ∧
    parseFilters (Option.some "5") = .error .typeError := by
  refine ⟨?_, rfl⟩
  have hl : loads "\x7b\"customer_id\":\"abc\"\x7d" =
      Option.some (.obj [("customer_id", .str "abc")]) := by
    rw [show ("\x7b\"customer_id\":\"abc\"\x7d" : String) =
      dumps (.obj [("customer_id", .str "abc")]) from rfl]
    exact loads_dumps _
  unfold parseFilters
  simp only []
  rw [if_neg (by decide), hl]
  rfl

/-- C6 counterexample: a limit of 0 is falsy, so `int(limit or 50)` replaces
it with the default 50 — not the clamp floor 1 the claim requires for every
integer — and a non-numeric limit string raises `ValueError` instead of
defaulting to 50. -/
theorem C6_limit_clamp_counterexample :
    effPageSize (.int 0) = .ok 50 ∧ (50 : Nat) ≠ 1 ∧
    effPageSize (.str "abc") = .error .valueError :=
  ⟨rfl, by decide, rfl⟩

/-- C6 (amended): every *nonzero* integer limit clamps to [1, MAX_LIMIT];
limit 0 and absent/None limits default to 50 (0 is falsy, so the claimed
clamp-to-1 does not happen); the compiled query binds `lim` to page size +
1 for the lookahead row; and the assembled response never holds more than
MAX_LIMIT items. -/
theorem C6_limit_clamping_amended (n : Int) (hn : n ≠ 0) (sel : List String)
    (f : Filters) :
    effPageSize (.int n) = .ok (max 1 (min n MAX_LIMIT)).toNat ∧
    effPageSize PyVal.none = .ok 50 ∧
    effPageSize (.int 0) = .ok 50 ∧
    (∃ p, buildSql sel f (.int n) Option.none =
        .ok (stmtText sel (filterWhere f), p, internalSelect sel, sel) ∧
      p.lookup "lim" = Option.some (.int ((max 1 (min n MAX_LIMIT)).toNat + 1))) ∧
    (∀ items psel ps, effPageSize (.int n) = .ok ps →
      (assemblePage items ps psel).items.length ≤ MAX_LIMIT.toNat) := by
  have h1 : effPageSize (.int n) = .ok (max 1 (min n MAX_LIMIT)).toNat := by
    unfold effPageSize
    rw [if_pos (show pyTruthy (.int n) = true by simp [pyTruthy, hn])]
    rfl
  refine ⟨h1, rfl, rfl, ⟨_, buildSql_none sel f (.int n) _ h1, lookup_dictSet _ _ _⟩,
    ?_⟩
  intro items psel ps hps
  obtain ⟨hlo, hhi⟩ := effPageSize_bounds hps
  rw [assemblePage_items_length]
  have hml : MAX_LIMIT.toNat = 200 := rfl
  by_cases h : items.length > ps
  · rw [if_pos h]; omega
  · rw [if_neg h]; omega

/-- C6 witness: limit 100000 clamps to 200, `lim` is bound to 201, and the
response holds at most 200 items. -/
theorem C6_limit_clamping_amended_witness :
    (100000 : Int) ≠ 0 ∧
    (effPageSize (.int 100000) = .ok (max 1 (min 100000 MAX_LIMIT)).toNat ∧
    effPageSize PyVal.none = .ok 50 ∧
    effPageSize (.int 0) = .ok 50 ∧
    (∃ p, buildSql DEFAULT_SELECT {} (.int 100000) Option.none =
        .ok (stmtText DEFAULT_SELECT (filterWhere {}), p,
          internalSelect DEFAULT_SELECT, DEFAULT_SELECT) ∧
      p.lookup "lim" =
        Option.some (.int ((max 1 (min 100000 MAX_LIMIT)).toNat + 1))) ∧
    (∀ items psel ps, effPageSize (.int 100000) = .ok ps →
      (assemblePage items ps psel).items.length ≤ MAX_LIMIT.toNat)) :=
  ⟨by decide, C6_limit_clamping_amended 100000 (by decide) DEFAULT_SELECT {}⟩

/-- The catalog lookup is the identity on catalog members and `none`
elsewhere. -/
theorem lookup_allowed (c : String) :
    ALLOWED_COLS.lookup c =
      if c ∈ ALLOWED_COLS.map Prod.fst then Option.some c else Option.none := by
  by_cases h1 : c = "customer_id"
  · subst h1; decide
  by_cases h2 : c = "name"
  · subst h2; decide
  by_cases h3 : c = "email"
  · subst h3; decide
  by_cases h4 : c = "ip_addr"
  · subst h4; decide
  by_cases h5 : c = "phone"
  · subst h5; decide
  by_cases h6 : c = "modified_ts"
  · subst h6; decide
  have hmem : c ∉ ALLOWED_COLS.map Prod.fst := by
    simp [ALLOWED_COLS, h1, h2, h3, h4, h5, h6]
  rw [if_neg hmem]
  simp [ALLOWED_COLS, List.lookup, beq_eq_false_iff_ne.mpr h1,
    beq_eq_false_iff_ne.mpr h2, beq_eq_false_iff_ne.mpr h3,
    beq_eq_false_iff_ne.mpr h4, beq_eq_false_iff_ne.mpr h5,
    beq_eq_false_iff_ne.mpr h6]

/-- Catalog `filterMap`-lookup keeps exactly the catalog members, in order. -/
theorem filterMap_lookup_allowed (l : List String) :
    l.filterMap (fun c => ALLOWED_COLS.lookup c) =
      l.filter (fun c => decide (c ∈ ALLOWED_COLS.map Prod.fst)) := by
  induction l with
  | nil => rfl
  | cons x t ih =>
    rw [List.filterMap_cons, List.filter_cons, lookup_allowed x]
    by_cases hx : x ∈ ALLOWED_COLS.map Prod.fst
    · rw [if_pos hx, ih]
      simp [hx]
    · rw [if_neg hx, ih]
      simp [hx]

/-- The projection rule as the spec words it: comma-split, trim, drop
empties, keep catalog members in caller order, fixed default when none
survive (an empty select_csv is falsy and also gets the default). -/
def specPublicSelect (s : String) : List String :=
  if s = "" then DEFAULT_SELECT
  else
    let toks := ((s.splitOn ",").map String.trim).filter (fun c => c ≠ "")
    let safe := toks.filter (fun c => decide (c ∈ ALLOWED_COLS.map Prod.fst))
    if safe = [] then DEFAULT_SELECT else safe

/-- `_parse_select` implements the spec-side projection rule. -/
theorem parseSelect_eq_spec (s : String) :
    parseSelect (Option.some s) = specPublicSelect s := by
  by_cases hs : s = ""
  · simp [parseSelect, specPublicSelect, hs]
  · simp only [parseSelect, specPublicSelect, if_neg hs, filterMap_lookup_allowed]

/-- Keep-catalog-or-default only ever returns catalog members
(the default projection is itself inside the catalog). -/
theorem keepCatalog_mem (l : List String) (c : String)
    (hc : c ∈ (if l.filter (fun c => decide (c ∈ ALLOWED_COLS.map Prod.fst)) = []
      then DEFAULT_SELECT
      else l.filter (fun c => decide (c ∈ ALLOWED_COLS.map Prod.fst)))) :
    c ∈ ALLOWED_COLS.map Prod.fst := by
  split at hc
  · exact (show ∀ x ∈ DEFAULT_SELECT, x ∈ ALLOWED_COLS.map Prod.fst by decide) c hc
  · exact of_decide_eq_true (List.mem_filter.mp hc).2

theorem specPublicSelect_mem (s : String) :
    ∀ c ∈ specPublicSelect s, c ∈ ALLOWED_COLS.map Prod.fst := by
  intro c hc
  unfold specPublicSelect at hc
  by_cases hs : s = ""
  · rw [if_pos hs] at hc
    exact (show ∀ x ∈ DEFAULT_SELECT, x ∈ ALLOWED_COLS.map Prod.fst by decide) c hc
  · rw [if_neg hs] at hc
    exact keepCatalog_mem (((s.splitOn ",").map String.trim).filter (fun c => c ≠ "")) c hc

/-- The internal projection is the public one plus the missing keyset
columns, appended in keyset order. -/
theorem internalSelect_eq (sel : List String) :
    internalSelect sel =
      sel ++ (KEYSET.map Prod.fst).filter (fun c => !sel.contains c) := by
  unfold internalSelect
  by_cases h1 : "modified_ts" ∈ sel <;> by_cases h2 : "customer_id" ∈ sel <;>
    simp [KEYSET, List.foldl_cons, List.foldl_nil, List.filter_cons, List.filter_nil,
      h1, h2]

/-- `pyJsonableKV` preserves the key set (it maps the values). -/
theorem lookup_pyJsonableKV (it : Item) (k : String) :
    (pyJsonableKV it).lookup k = (it.lookup k).map pyJsonable := by
  induction it with
  | nil => rfl
  | cons kv t ih =>
    obtain ⟨k0, v0⟩ := kv
    simp only [pyJsonableKV, List.lookup]
    cases hb : k == k0 <;> simp [hb, ih]

/-- Popping a key removes its binding. -/
theorem itemGet_itemPop_self (it : Item) (k : String) :
    itemGet (itemPop it k) k = Option.none := by
  induction it with
  | nil => rfl
  | cons kv t ih =>
    obtain ⟨k0, v0⟩ := kv
    unfold itemPop itemGet at ih ⊢
    rw [List.filter_cons]
    by_cases h : k0 = k
    · subst h
      rw [if_neg (by simp)]
      exact ih
    · rw [if_pos (by simp [h])]
      simp only [List.lookup, beq_eq_false_iff_ne.mpr (Ne.symm h)]
      exact ih

/-- Popping one key leaves the others' bindings unchanged. -/
theorem itemGet_itemPop_ne (it : Item) {k k' : String} (h : k' ≠ k) :
    itemGet (itemPop it k) k' = itemGet it k' := by
  induction it with
  | nil => rfl
  | cons kv t ih =>
    obtain ⟨k0, v0⟩ := kv
    unfold itemPop itemGet at ih ⊢
    rw [List.filter_cons]
    by_cases h0 : k0 = k
    · subst h0
      rw [if_neg (by simp)]
      rw [ih]
      simp only [List.lookup, beq_eq_false_iff_ne.mpr h]
    · rw [if_pos (by simp [h0])]
      cases hb : k' == k0
      · simp only [List.lookup, hb]
        exact ih
      · simp only [List.lookup, hb]

/-- A keyset column the caller did not select is removed from every
assembled item. -/
theorem assemblePage_strips (items : List Item) (ps : Nat) (psel : List String)
    (c : String) (hc : c ∈ KEYSET.map Prod.fst) (hnp : psel.contains c = false) :
    ∀ it ∈ (assemblePage items ps psel).items, itemGet it c = Option.none := by
  intro it hit
  have hdef : (assemblePage items ps psel).items =
      (KEYSET.foldl (fun acc cd => if psel.contains cd.1 then acc
        else acc.map (fun x => itemPop x cd.1))
        (if items.length > ps then items.take ps else items)).map pyJsonableKV := rfl
  rw [hdef, List.mem_map] at hit
  obtain ⟨x, hx, hxe⟩ := hit
  subst hxe
  show (pyJsonableKV x).lookup c = Option.none
  rw [lookup_pyJsonableKV]
  have hc2 : c = "modified_ts" ∨ c = "customer_id" := by
    simpa [KEYSET] using hc
  have hx0 : itemGet x c = Option.none := by
    simp only [KEYSET, List.foldl_cons, List.foldl_nil] at hx
    rcases hc2 with rfl | rfl
    · rw [if_neg (show ¬(psel.contains "modified_ts" = true) by rw [hnp]; exact Bool.false_ne_true)] at hx
      by_cases h2 : psel.contains "customer_id" = true
      · rw [if_pos h2] at hx
        rw [List.mem_map] at hx
        obtain ⟨y, _, rfl⟩ := hx
        exact itemGet_itemPop_self y _
      · rw [if_neg h2] at hx
        rw [List.mem_map] at hx
        obtain ⟨y, hy, rfl⟩ := hx
        rw [itemGet_itemPop_ne _ (by decide)]
        rw [List.mem_map] at hy
        obtain ⟨z, _, rfl⟩ := hy
        exact itemGet_itemPop_self z _
    · rw [if_neg (show ¬(psel.contains "customer_id" = true) by rw [hnp]; exact Bool.false_ne_true)] at hx
      rw [List.mem_map] at hx
      obtain ⟨y, _, rfl⟩ := hx
      exact itemGet_itemPop_self y _
  show Option.map pyJsonable (itemGet x c) = Option.none
  rw [hx0]
  rfl

/-- C7: the public projection keeps exactly the trimmed comma tokens that
are catalog members, in caller order, defaulting when none survive; only
catalog members can appear; the internal projection appends the missing
keyset columns; and keyset columns absent from the public projection are
removed from every returned item. -/
theorem C7_projection (s : String) (sel : List String) :
    parseSelect Option.none = DEFAULT_SELECT ∧
    parseSelect (Option.some s) = specPublicSelect s ∧
    (∀ c ∈ parseSelect (Option.some s), c ∈ ALLOWED_COLS.map Prod.fst) ∧
    internalSelect sel =
      sel ++ (KEYSET.map Prod.fst).filter (fun c => !sel.contains c) ∧
    (∀ items ps c, c ∈ KEYSET.map Prod.fst → sel.contains c = false →
      ∀ it ∈ (assemblePage items ps sel).items, itemGet it c = Option.none) := by
  refine ⟨rfl, parseSelect_eq_spec s, ?_, internalSelect_eq sel, ?_⟩
  · intro c hcmem
    rw [parseSelect_eq_spec] at hcmem
    exact specPublicSelect_mem s c hcmem
  · intro items ps c hc hnp
    exact assemblePage_strips items ps sel c hc hnp

/-- C7 witness: a select list with a hostile token and a non-selected
keyset column. -/
theorem C7_projection_witness :
    parseSelect Option.none = DEFAULT_SELECT ∧
    parseSelect (Option.some "drop table;,email") =
      specPublicSelect "drop table;,email" ∧
    (∀ c ∈ parseSelect (Option.some "drop table;,email"),
      c ∈ ALLOWED_COLS.map Prod.fst) ∧
    internalSelect ["email"] =
      ["email"] ++ (KEYSET.map Prod.fst).filter (fun c => !(["email"].contains c)) ∧
    (∀ items ps c, c ∈ KEYSET.map Prod.fst → (["email"].contains c) = false →
      ∀ it ∈ (assemblePage items ps ["email"]).items, itemGet it c = Option.none) :=
  C7_projection "drop table;,email" ["email"]

/-- C8: page assembly from the raw lookahead rows — has_more holds exactly
when the row count exceeds the page size; then the cursor encodes the keyset
values of the row at index page_size - 1 and the items are cut to exactly
page_size; otherwise the cursor is null and nothing is cut; zero rows give
the empty page; and count always equals the number of items. -/
theorem C8_page_assembly (items : List Item) (ps : Nat) (psel : List String)
    (hps : 1 ≤ ps) :
    ((assemblePage items ps psel).has_more = true ↔ items.length > ps) ∧
    (items.length > ps →
      (assemblePage items ps psel).next_cursor =
        Option.some ((pyB64 (.dict [("after",
          .list (keysetVals (items.getD (ps - 1) [])))])).getD "") ∧
      (assemblePage items ps psel).items.length = ps) ∧
    (items.length ≤ ps →
      (assemblePage items ps psel).next_cursor = Option.none ∧
      (assemblePage items ps psel).items.length = items.length) ∧
    assemblePage [] ps psel = ⟨0, [], Option.none, false⟩ ∧
    (assemblePage items ps psel).count = (assemblePage items ps psel).items.length := by
  have hhm : (assemblePage items ps psel).has_more = decide (items.length > ps) := rfl
  have hnc : (assemblePage items ps psel).next_cursor =
      (if items.length > ps then
        Option.some ((pyB64 (.dict [("after",
          .list (keysetVals (items.getD (ps - 1) [])))])).getD "")
      else Option.none) := rfl
  refine ⟨?_, ?_, ?_, ?_, rfl⟩
  · rw [hhm]
    exact decide_eq_true_iff
  · intro h
    constructor
    · rw [hnc, if_pos h]
    · rw [assemblePage_items_length, if_pos h]
  · intro h
    have h' : ¬(items.length > ps) := by omega
    constructor
    · rw [hnc, if_neg h']
    · rw [assemblePage_items_length, if_neg h']
  · have h2 : (assemblePage [] ps psel).items = [] := by
      have h3 := assemblePage_items_length [] ps psel
      simp only [List.length_nil, gt_iff_lt, Nat.not_lt_zero, if_false] at h3
      exact List.length_eq_zero.mp h3
    have hcnt : (assemblePage [] ps psel).count = 0 := by
      rw [show (assemblePage [] ps psel).count =
        (assemblePage [] ps psel).items.length from rfl, h2]
      rfl
    calc assemblePage [] ps psel
        = ⟨(assemblePage [] ps psel).count, (assemblePage [] ps psel).items,
            (assemblePage [] ps psel).next_cursor,
            (assemblePage [] ps psel).has_more⟩ := rfl
      _ = ⟨0, [], Option.none, false⟩ := by
          rw [hcnt, h2]
          rfl

/-- The three lookahead rows of the demo pagination scenario, as items. -/
def wItems : List Item :=
  [[("modified_ts", PyVal.int 30), ("customer_id", PyVal.int 3)],
   [("modified_ts", PyVal.int 20), ("customer_id", PyVal.int 2)],
   [("modified_ts", PyVal.int 10), ("customer_id", PyVal.int 1)]]

/-- C8 witness: three lookahead rows and page size 2. -/
theorem C8_page_assembly_witness :
    1 ≤ 2 ∧
    (((assemblePage wItems 2 ["email"]).has_more = true ↔ wItems.length > 2) ∧
    (wItems.length > 2 →
      (assemblePage wItems 2 ["email"]).next_cursor =
        Option.some ((pyB64 (.dict [("after",
          .list (keysetVals (wItems.getD (2 - 1) [])))])).getD "") ∧
      (assemblePage wItems 2 ["email"]).items.length = 2) ∧
    (wItems.length ≤ 2 →
      (assemblePage wItems 2 ["email"]).next_cursor = Option.none ∧
      (assemblePage wItems 2 ["email"]).items.length = wItems.length) ∧
    assemblePage [] 2 ["email"] = ⟨0, [], Option.none, false⟩ ∧
    (assemblePage wItems 2 ["email"]).count =
      (assemblePage wItems 2 ["email"]).items.length) :=
  ⟨by decide, C8_page_assembly wItems 2 ["email"] (by decide)⟩

/-- C9: the cursor codec round-trips — decoding the encoded token recovers
the embedded keyset-value list exactly, both at the `_unb64`/`_b64` level
and through the "after" access `_build_sql` performs. -/
theorem C9_cursor_roundtrip (v : List JVal) (hv : v.length = KEYSET.length) :
    unb64 (Option.some (b64OfJson (.obj [("after", .arr v)]))) =
      .obj [("after", .arr v)] ∧
    cursorAfter (Option.some (b64OfJson (.obj [("after", .arr v)]))) =
      .ok (.arr v) :=
  ⟨unb64_b64OfJson _, cursorAfter_round v⟩

/-- C9 witness: the keyset values [20, 2]. -/
theorem C9_cursor_roundtrip_witness :
    [JVal.int 20, JVal.int 2].length = KEYSET.length ∧
    (unb64 (Option.some (b64OfJson
        (.obj [("after", .arr [JVal.int 20, JVal.int 2])]))) =
      .obj [("after", .arr [JVal.int 20, JVal.int 2])] ∧
    cursorAfter (Option.some (b64OfJson
        (.obj [("after", .arr [JVal.int 20, JVal.int 2])]))) =
      .ok (.arr [JVal.int 20, JVal.int 2])) :=
  ⟨by decide, C9_cursor_roundtrip [JVal.int 20, JVal.int 2] (by decide)⟩

/-- Decimal digit characters only in `natToChars`. -/
theorem natToChars_digits (n : Nat) : ∀ c ∈ natToChars n, isDigitCh c = true := by
  induction n using Nat.strong_induction_on with
  | _ n ih =>
    unfold natToChars
    split
    · intro c hc
      simp only [List.mem_singleton] at hc
      subst hc
      exact isDigitCh_digitChar n
    · intro c hc
      rcases List.mem_append.1 hc with h1 | h1
      · exact ih (n / 10) (Nat.div_lt_self (by omega) (by omega)) c h1
      · simp only [List.mem_singleton] at h1
        subst h1
        exact isDigitCh_digitChar _

theorem cons0_digits {l : List Char} (h : ∀ c ∈ l, isDigitCh c = true) :
    ∀ c ∈ '0' :: l, isDigitCh c = true := by
  intro c hc
  rcases List.mem_cons.1 hc with rfl | hm
  · decide
  · exact h c hm

theorem pad2_digits (n : Nat) : ∀ c ∈ pad2 n, isDigitCh c = true := by
  unfold pad2
  split
  · exact cons0_digits (natToChars_digits n)
  · exact natToChars_digits n

theorem pad4_digits (n : Nat) : ∀ c ∈ pad4 n, isDigitCh c = true := by
  unfold pad4
  split
  · exact cons0_digits (cons0_digits (cons0_digits (natToChars_digits n)))
  · split
    · exact cons0_digits (cons0_digits (natToChars_digits n))
    · split
      · exact cons0_digits (natToChars_digits n)
      · exact natToChars_digits n

theorem pad6_digits (n : Nat) : ∀ c ∈ pad6 n, isDigitCh c = true := by
  unfold pad6
  split
  · exact cons0_digits (cons0_digits (cons0_digits (cons0_digits
      (cons0_digits (natToChars_digits n)))))
  · split
    · exact cons0_digits (cons0_digits (cons0_digits (cons0_digits
        (natToChars_digits n))))
    · split
      · exact cons0_digits (cons0_digits (cons0_digits (natToChars_digits n)))
      · split
        · exact cons0_digits (cons0_digits (natToChars_digits n))
        · split
          · exact cons0_digits (natToChars_digits n)
          · exact natToChars_digits n

/-- The `+00:00 → Z` normalization is the identity on text without `+`. -/
theorem replacePlusZeroZ_id (l : List Char) (h : '+' ∉ l) :
    replacePlusZeroZ l = l := by
  induction l with
  | nil => rfl
  | cons c t ih =>
    by_cases hc : c = '+'
    · exact absurd (hc ▸ List.mem_cons_self c t) h
    · have hstep : replacePlusZeroZ (c :: t) = c :: replacePlusZeroZ t := by
        rw [replacePlusZeroZ.eq_def]
        split
        · next heq =>
          injection heq with h1 _
          exact absurd h1 hc
        · next c' rest heq =>
          injection heq with h1 h2
          rw [h1, h2]
        · next heq => cases heq
      rw [hstep, ih (fun hm => h (List.mem_cons_of_mem c hm))]

/-- A timezone-naive datetime's ISO text holds no `+`. -/
theorem plus_not_mem_isoDT (dt : PyDateTime) (htz : dt.tz = Option.none) :
    '+' ∉ isoDT dt := by
  intro hmem
  unfold isoDT isoDate isoTZ at hmem
  rw [htz] at hmem
  simp only [List.mem_append, List.mem_cons, List.not_mem_nil, or_false] at hmem
  rcases hmem with ((h | h) | h) | h
  · exact absurd (pad4_digits dt.year '+' h) (by decide)
  · rcases h with h | h
    · exact absurd h (by decide)
    · rcases h with h | h
      · exact absurd (pad2_digits dt.month '+' h) (by decide)
      · rcases h with h | h
        · exact absurd h (by decide)
        · exact absurd (pad2_digits dt.day '+' h) (by decide)
  · rcases h with h | h
    · exact absurd h (by decide)
    · rcases h with h | h
      · exact absurd (pad2_digits dt.hour '+' h) (by decide)
      · rcases h with h | h
        · exact absurd h (by decide)
        · rcases h with h | h
          · exact absurd (pad2_digits dt.minute '+' h) (by decide)
          · rcases h with h | h
            · exact absurd h (by decide)
            · exact absurd (pad2_digits dt.second '+' h) (by decide)
  · split at h
    · exact (List.not_mem_nil _) h
    · rcases List.mem_cons.1 h with h1 | h1
      · exact absurd h1 (by decide)
      · exact absurd (pad6_digits dt.micro '+' h1) (by decide)

/-- C10 counterexample: on a plain integer the effective item converter
keeps the value while the cursor encoder's fallback stringifies it. -/
theorem C10_converters_differ :
    pyJsonable (.int 5) = .int 5 ∧ pyJsonDefault (.int 5) = .str "5" ∧
    pyJsonable (.int 5) ≠ pyJsonDefault (.int 5) := by
  have h5 : natToChars 5 = ['5'] := by
    unfold natToChars
    rfl
  have h1 : pyJsonable (.int 5) = .int 5 := by
    simp only [pyJsonable]
  have h2 : pyJsonDefault (.int 5) = .str "5" := by
    simp only [pyJsonDefault, pyStrOf]
    rw [show intToChars 5 = natToChars 5 by simp [intToChars], h5]
  refine ⟨h1, h2, ?_⟩
  rw [h1, h2]
  exact fun h => PyVal.noConfusion h

/-- C10 (amended): the two converters agree on strings, Decimals, bytes,
dates and timezone-naive datetimes; they differ everywhere `_json_default`'s
`str(o)` fallback fires on a value JSON already handles — integers,
containers — and on bytearray, which only `_json_default` decodes. -/
theorem C10_converter_agreement (s : String) (q : Rat) (bs : List Nat)
    (y m d : Nat) (dt : PyDateTime) (htz : dt.tz = Option.none) (n : Int)
    (xs : List PyVal) :
    pyJsonable (.str s) = pyJsonDefault (.str s) ∧
    pyJsonable (.decimal q) = pyJsonDefault (.decimal q) ∧
    pyJsonable (.bytes bs) = pyJsonDefault (.bytes bs) ∧
    pyJsonable (.date y m d) = pyJsonDefault (.date y m d) ∧
    pyJsonable (.datetime dt) = pyJsonDefault (.datetime dt) ∧
    (pyJsonable (.int n) = .int n ∧
      pyJsonDefault (.int n) = .str (pyStrOf (.int n))) ∧
    (pyJsonable (.bytearray bs) = .bytearray bs ∧
      pyJsonDefault (.bytearray bs) = .str (String.mk (utf8DecodeIgnore bs))) ∧
    (pyJsonable (.list xs) = .list (pyJsonableList xs) ∧
      pyJsonDefault (.list xs) = .str (pyStrOf (.list xs))) := by
  refine ⟨?_, ?_, ?_, ?_, ?_, ⟨?_, ?_⟩, ⟨?_, ?_⟩, ⟨?_, ?_⟩⟩
  · simp only [pyJsonable, pyJsonDefault, pyStrOf]
  · simp only [pyJsonable, pyJsonDefault]
  · simp only [pyJsonable, pyJsonDefault]
  · simp only [pyJsonable, pyJsonDefault]
  · simp only [pyJsonable, pyJsonDefault]
    rw [replacePlusZeroZ_id (isoDT dt) (plus_not_mem_isoDT dt htz)]
  · simp only [pyJsonable]
  · simp only [pyJsonDefault]
  · simp only [pyJsonable]
  · simp only [pyJsonDefault]
  · simp only [pyJsonable]
  · simp only [pyJsonDefault]

/-- C10 witness: concrete values of every compared class, with a naive
datetime. -/
theorem C10_converter_agreement_witness :
    (⟨2025, 1, 2, 3, 4, 5, 0, Option.none⟩ : PyDateTime).tz = Option.none ∧
    (pyJsonable (.str "x") = pyJsonDefault (.str "x") ∧
    pyJsonable (.decimal 1) = pyJsonDefault (.decimal 1) ∧
    pyJsonable (.bytes [65]) = pyJsonDefault (.bytes [65]) ∧
    pyJsonable (.date 2025 10 12) = pyJsonDefault (.date 2025 10 12) ∧
    pyJsonable (.datetime ⟨2025, 1, 2, 3, 4, 5, 0, Option.none⟩) =
      pyJsonDefault (.datetime ⟨2025, 1, 2, 3, 4, 5, 0, Option.none⟩) ∧
    (pyJsonable (.int 5) = .int 5 ∧
      pyJsonDefault (.int 5) = .str (pyStrOf (.int 5))) ∧
    (pyJsonable (.bytearray [65]) = .bytearray [65] ∧
      pyJsonDefault (.bytearray [65]) = .str (String.mk (utf8DecodeIgnore [65]))) ∧
    (pyJsonable (.list []) = .list (pyJsonableList []) ∧
      pyJsonDefault (.list []) = .str (pyStrOf (.list [])))) :=
  ⟨rfl, C10_converter_agreement "x" 1 [65] 2025 10 12
    ⟨2025, 1, 2, 3, 4, 5, 0, Option.none⟩ rfl 5 []⟩

end DataApi
